import Mathlib

/-!
Verification of the medal-economy settlement engine.

Shallow embedding of the server-side procedures
`run_weighted_distribution_v2` and `upsert_scores_big_v2`
(supabase/migrations/20251102075311_5aa270e0-7c10-4d9e-8857-d7e057ed2186.sql)
over list-based models of the `event_totals`, `players`, `scores` and
`ledger_transactions` tables.  SQL `numeric(30,0)` quantities are modelled as
`Int`; intermediate `numeric` expressions are modelled as exact rationals `ℚ`
(with explicit rounding where a value is stored back into a scaled column);
uuids are modelled as `Nat`.
-/

namespace MedalLedger

/-- Row of `event_totals` for one (event, medal) pair: the fixed pot, the
amount consumed by the raffle, the amount already paid by the weighted
distribution engine, and the qualification threshold (each read with
`COALESCE(..., 0)` in the procedure, so modelled as plain integers). -/
structure EventTotals where
  total_amount : Int
  raffle_amount_used : Int
  distributed_amount : Int
  min_score_for_raffle : Int
deriving DecidableEq

/-- Row of `players` (the columns the settlement engine and its claims read). -/
structure Player where
  id : Nat
  is_alt : Bool
  main_player_id : Option Nat
  deleted_at : Option Nat
deriving DecidableEq

/-- Row of `scores` (the columns read by the engine and written by the upsert). -/
structure Score where
  event_id : Nat
  player_id : Nat
  score : Int
  raw_score : Int
  verified : Bool
  created_by : Nat
deriving DecidableEq

/-- Row inserted into `ledger_transactions` by one distribution run. -/
structure LedgerTx where
  player_id : Nat
  medal_id : Nat
  amount : Int
  transaction_type : String
  event_id : Nat
  description : String
  created_by : Nat
deriving DecidableEq

/-- Row of the temp table `temp_distribution`.  The columns `raw_share` and
`share` are `numeric(30,0)` (integers); `fractional` is `numeric(10,6)`. -/
structure TempDistRow where
  main_id : Nat
  score_sum : Int
  raw_share : Int
  share : Int
  fractional : ℚ
  is_capped : Bool
deriving DecidableEq

/-- Postgres `numeric` rounding to an integer (round half away from zero), as
performed when a value is stored into a `numeric(30,0)` column. -/
def numericRound (x : ℚ) : Int := if 0 ≤ x then ⌊x + 1 / 2⌋ else -⌊-x + 1 / 2⌋

/-- Storing into the `numeric(10,6)` column `fractional` keeps 6 decimals. -/
def numericRound6 (x : ℚ) : ℚ := (numericRound (x * 1000000) : ℚ) / 1000000

/-- Resolution of a score row's owner to the payout identity, i.e. the value
`COALESCE(p.main_player_id, p.id)` after `JOIN players p ON p.id = s.player_id`
(`none` when no player row matches the score's `player_id`). -/
def resolveMainId (players : List Player) (pid : Nat) : Option Nat :=
  (players.find? fun p => p.id == pid).map fun p => p.main_player_id.getD p.id

/-- The aggregation query's WHERE clause: score rows of this event with
`score >= min_score_threshold AND verified = true`. -/
def qualifies (event_uuid : Nat) (thr : Int) (s : Score) : Bool :=
  s.event_id == event_uuid && decide (thr ≤ s.score) && s.verified

/-- One (resolved main id, score) pair per qualifying, join-surviving score row. -/
def resolvedPairs (event_uuid : Nat) (thr : Int) (scores : List Score)
    (players : List Player) : List (Nat × Int) :=
  (scores.filter (qualifies event_uuid thr)).filterMap fun s =>
    (resolveMainId players s.player_id).map fun m => (m, s.score)

/-- The `INSERT INTO temp_distribution ... GROUP BY COALESCE(p.main_player_id, p.id)`
step: one row per distinct resolved main id, holding the summed score. -/
def aggregatedRows (event_uuid : Nat) (thr : Int) (scores : List Score)
    (players : List Player) : List TempDistRow :=
  ((resolvedPairs event_uuid thr scores players).map Prod.fst).dedup.map fun m =>
    { main_id := m
      score_sum := (((resolvedPairs event_uuid thr scores players).filter
        fun q => q.1 == m).map Prod.snd).sum
      raw_share := 0, share := 0, fractional := 0, is_capped := false }

/-- The initial proportional-allocation UPDATE.  With
`x = (score_sum::numeric / sum_scores) * remaining`:
`raw_share := x` (rounded on store into `numeric(30,0)`),
`share := LEAST(FLOOR(x), cap_amount)`,
`fractional := LEAST(x, cap_amount) - FLOOR(LEAST(x, cap_amount))` and
`is_capped := FLOOR(x) > cap_amount`. -/
def initRow (sum_scores remaining cap_amount : Int) (r : TempDistRow) : TempDistRow :=
  let x : ℚ := (r.score_sum : ℚ) / (sum_scores : ℚ) * (remaining : ℚ)
  { r with
    raw_share := numericRound x
    share := min ⌊x⌋ cap_amount
    fractional := numericRound6 (min x (cap_amount : ℚ) - ⌊min x (cap_amount : ℚ)⌋)
    is_capped := decide (cap_amount < ⌊x⌋) }

/-- Headroom of one row inside the water-filling pass:
`LEAST(cap_amount - share, LEAST(raw_share, cap_amount) - share)`. -/
def residualOf (cap_amount : Int) (r : TempDistRow) : Int :=
  min (cap_amount - r.share) (min r.raw_share cap_amount - r.share)

/-- The water-filling pass's row filter: `share < cap_amount AND share < raw_share`. -/
def isEligible (cap_amount : Int) (r : TempDistRow) : Bool :=
  decide (r.share < cap_amount) && decide (r.share < r.raw_share)

/-- Total residual of the under-cap, under-raw-share rows. -/
def totalResidual (cap_amount : Int) (rows : List TempDistRow) : Int :=
  ((rows.filter (isEligible cap_amount)).map (residualOf cap_amount)).sum

/-- Delta granted to one row in one water-filling round:
`FLOOR(leftover * residual / total_residual)` clamped by `cap_amount - share`,
applied only when positive (ineligible rows receive nothing). -/
def deltaFor (cap_amount leftover tr : Int) (r : TempDistRow) : Int :=
  if isEligible cap_amount r then
    let d := min ⌊((leftover * residualOf cap_amount r : Int) : ℚ) / (tr : ℚ)⌋
      (cap_amount - r.share)
    if 0 < d then d else 0
  else 0

/-- The per-row UPDATE of one water-filling round (executed only when the
delta is positive, and setting `is_capped` from the old share plus delta). -/
def applyDelta (cap_amount leftover tr : Int) (r : TempDistRow) : TempDistRow :=
  let d := deltaFor cap_amount leftover tr r
  if 0 < d then
    { r with share := r.share + d, is_capped := decide (cap_amount ≤ r.share + d) }
  else r

/-- The loop bound `max_realloc_rounds` of the water-filling loop. -/
def max_realloc_rounds : Nat := 10

/-- The water-filling reallocation loop
(`WHILE leftover > 0 AND realloc_round < max_realloc_rounds`), with the
remaining round budget as fuel.  Each round computes the total residual over a
snapshot of the rows, exits when it is zero, otherwise applies the per-row
deltas, subtracts the allocated total from the leftover, and exits when the
round allocated nothing. -/
def waterLoop (cap_amount : Int) : Nat → List TempDistRow × Int → List TempDistRow × Int
  | 0, st => st
  | fuel + 1, (rows, leftover) =>
    if 0 < leftover then
      let tr := totalResidual cap_amount rows
      if tr = 0 then (rows, leftover)
      else
        let rows2 := rows.map (applyDelta cap_amount leftover tr)
        let da := (rows.map (deltaFor cap_amount leftover tr)).sum
        if da = 0 then (rows2, leftover - da)
        else waterLoop cap_amount fuel (rows2, leftover - da)
    else (rows, leftover)

/-- Comparison used by `ORDER BY fractional DESC, score_sum DESC`: `b` strictly
precedes `a` in that order. -/
def lrBetter (a b : TempDistRow) : Bool :=
  decide (a.fractional < b.fractional) ||
    (decide (a.fractional = b.fractional) && decide (a.score_sum < b.score_sum))

/-- The `SELECT main_id ... WHERE share < cap_amount ORDER BY fractional DESC,
score_sum DESC LIMIT 1` of the largest-remainder loop: the first row attaining
the lexicographic maximum (ties beyond the two sort keys are unordered in SQL;
the model resolves them by list position). -/
def lrPick (cap_amount : Int) (rows : List TempDistRow) : Option Nat :=
  match rows.filter fun r => decide (r.share < cap_amount) with
  | [] => none
  | h :: t => some ((t.foldl (fun best r => if lrBetter best r then r else best) h).main_id)

/-- The largest-remainder UPDATE: one extra unit to the picked row, zeroing its
fractional and recomputing `is_capped` from the old share plus one. -/
def bumpRow (cap_amount : Int) (mid : Nat) (r : TempDistRow) : TempDistRow :=
  if r.main_id == mid then
    { r with
      share := r.share + 1
      fractional := 0
      is_capped := decide (cap_amount ≤ r.share + 1) }
  else r

/-- The largest-remainder loop (`WHILE leftover > 0`), fuelled: each iteration
either exits because no under-cap row exists or grants one unit and decrements
the leftover by one. -/
def lrLoop (cap_amount : Int) : Nat → List TempDistRow × Int → List TempDistRow × Int
  | 0, st => st
  | fuel + 1, (rows, leftover) =>
    if 0 < leftover then
      match lrPick cap_amount rows with
      | none => (rows, leftover)
      | some mid => lrLoop cap_amount fuel (rows.map (bumpRow cap_amount mid), leftover - 1)
    else (rows, leftover)

/-- The remaining pot read at the start of a run:
`total_amount - raffle_amount_used - distributed_amount`. -/
def remaining_of (t : EventTotals) : Int :=
  t.total_amount - t.raffle_amount_used - t.distributed_amount

/-- The per-recipient ceiling `cap_amount := FLOOR(remaining * 0.10)`. -/
def cap_of (remaining : Int) : Int := ⌊(remaining : ℚ) * (10 / 100 : ℚ)⌋

/-- Sum of the `score_sum` column of `temp_distribution`. -/
def sumScores (rows : List TempDistRow) : Int := (rows.map fun r => r.score_sum).sum

/-- Sum of the `share` column of `temp_distribution`. -/
def sumShares (rows : List TempDistRow) : Int := (rows.map fun r => r.share).sum

/-- Steps 5 to 7 of the engine: initial allocation, water-filling with fuel
`max_realloc_rounds`, then the largest-remainder loop, whose fuel is the
leftover itself (it decreases by exactly one per granted unit). -/
def allocate (cap_amount remaining sum_scores : Int) (rows0 : List TempDistRow) :
    List TempDistRow × Int :=
  let rows1 := rows0.map (initRow sum_scores remaining cap_amount)
  let leftover0 := remaining - sumShares rows1
  let st1 := waterLoop cap_amount max_realloc_rounds (rows1, leftover0)
  lrLoop cap_amount st1.2.toNat st1

/-- Structured value of the jsonb object returned by one distribution run. -/
inductive RunResult where
  | noop_no_remaining
  | noop_no_scores (remaining : Int)
  | ok (players : Nat) (remaining_before distributed_now remaining_after : Int)
      (capped_players : Nat)
deriving DecidableEq

/-- Effect of one run: its returned value, the ledger transactions it inserted
(in order), and the `event_totals` row after the run. -/
structure RunOutcome where
  result : RunResult
  new_txs : List LedgerTx
  totals : EventTotals
deriving DecidableEq

/-- The procedure `run_weighted_distribution_v2`, acting on the locked
`event_totals` row for the (event, medal) pair together with the `scores` and
`players` tables.  The `NOT FOUND` exception branch is not modelled: every
claim concerns states in which the row exists.  The failure-free path is a
single transaction, so the outcome bundles the return value with the writes. -/
def run_weighted_distribution_v2 (event_uuid medal_uuid actor : Nat)
    (totals : EventTotals) (scores : List Score) (players : List Player) : RunOutcome :=
  let remaining := remaining_of totals
  if remaining ≤ 0 then
    { result := RunResult.noop_no_remaining, new_txs := [], totals := totals }
  else
    let cap_amount := cap_of remaining
    let rows0 := aggregatedRows event_uuid totals.min_score_for_raffle scores players
    if sumScores rows0 = 0 then
      { result := RunResult.noop_no_scores remaining, new_txs := [], totals := totals }
    else
      let rowsFinal := (allocate cap_amount remaining (sumScores rows0) rows0).1
      let paid := rowsFinal.filter fun r => decide (0 < r.share)
      let total_distributed := (paid.map fun r => r.share).sum
      { result := RunResult.ok paid.length remaining total_distributed
          (remaining - total_distributed) (rowsFinal.filter fun r => r.is_capped).length
        new_txs := paid.map fun r =>
          { player_id := r.main_id
            medal_id := medal_uuid
            amount := r.share
            transaction_type := "weighted_distribution"
            event_id := event_uuid
            description := "Avalon 50% score-based distribution (alt→main, cap reallocation)"
            created_by := actor }
        totals := { totals with
          distributed_amount := totals.distributed_amount + total_distributed } }

/-- One element of the jsonb array accepted by `upsert_scores_big_v2`.  A field
is `none` when it is absent, JSON `null`, or its cast (`::uuid`,
`::numeric(30,0)`, `::boolean`) fails; any such required field makes the
per-row insert raise, which the row-level exception handler turns into a
skip. -/
structure PayloadItem where
  event_id : Option Nat
  player_id : Option Nat
  score : Option Int
  raw_score : Option Int
  verified : Option Bool
  created_by : Option Nat
deriving DecidableEq

/-- Extraction of the inserted row from one payload element: the five required
fields must parse, and `verified` defaults to true (`COALESCE(..., true)`). -/
def parseItem (it : PayloadItem) : Option Score :=
  match it.event_id, it.player_id, it.score, it.raw_score, it.created_by with
  | some e, some p, some s, some r, some c =>
    some { event_id := e
           player_id := p
           score := s
           raw_score := r
           verified := it.verified.getD true
           created_by := c }
  | _, _, _, _, _ => none

/-- Key predicate of the unique index on `scores (event_id, player_id)`. -/
def sameKey (e p : Nat) (t : Score) : Bool := t.event_id == e && t.player_id == p

/-- Lookup in the scores table by its unique key. -/
def lookupScore (store : List Score) (e p : Nat) : Option Score :=
  store.find? (sameKey e p)

/-- The `INSERT ... ON CONFLICT (event_id, player_id) DO UPDATE` of one row:
on conflict, overwrite `score`, `raw_score` and `verified` of the stored row
(`created_by` is kept); otherwise append the new row. -/
def upsertScore (store : List Score) (s : Score) : List Score :=
  if store.any (sameKey s.event_id s.player_id) then
    store.map fun t =>
      if sameKey s.event_id s.player_id t then
        { t with score := s.score, raw_score := s.raw_score, verified := s.verified }
      else t
  else store ++ [s]

/-- Return value and table effect of `upsert_scores_big_v2`. -/
structure UpsertOutcome where
  scores : List Score
  committed : Nat
  skipped : Nat
deriving DecidableEq

/-- One step of the row loop of `upsert_scores_big_v2`: a parsed row is
upserted and counted as committed, a failing row is counted as skipped. -/
def upsertStep (acc : UpsertOutcome) (it : PayloadItem) : UpsertOutcome :=
  match parseItem it with
  | some s => { acc with scores := upsertScore acc.scores s, committed := acc.committed + 1 }
  | none => { acc with skipped := acc.skipped + 1 }

/-- The procedure `upsert_scores_big_v2` on an already-array payload: each row
is processed independently inside its own exception block. -/
def upsert_scores_big_v2 (payload : List PayloadItem) (store : List Score) : UpsertOutcome :=
  payload.foldl upsertStep { scores := store, committed := 0, skipped := 0 }

/-! The Batteries rational-number operations are `@[irreducible]`, which keeps
`decide` and `rfl` from evaluating the engine on concrete states.  The witness
theorems below evaluate the model on explicit inputs, so the arithmetic is made
unfoldable for this file. -/

attribute [local semireducible] Rat.add Rat.mul Rat.inv Rat.sub

/-! Generic list helpers used throughout the development. -/

lemma sum_map_filter_of_zero {α : Type} (p : α → Bool) (f : α → Int) :
    ∀ l : List α, (∀ x ∈ l, p x = false → f x = 0) →
      ((l.filter p).map f).sum = (l.map f).sum := by
  intro l
  induction l with
  | nil => intro _; rfl
  | cons a t ih =>
    intro h
    have ht := ih fun x hx hx0 => h x (List.mem_cons_of_mem a hx) hx0
    cases hp : p a with
    | true => simp [List.filter_cons, hp, ht]
    | false =>
      have ha : f a = 0 := h a (List.mem_cons_self a t) hp
      simp [List.filter_cons, hp, ht, ha]

lemma sum_map_add_int {α : Type} (l : List α) (f g : α → Int) :
    (l.map fun x => f x + g x).sum = (l.map f).sum + (l.map g).sum := by
  induction l with
  | nil => rfl
  | cons a t ih => simp only [List.map_cons, List.sum_cons, ih]; ring

lemma cast_sum_map_int {α : Type} (l : List α) (f : α → Int) :
    (((l.map f).sum : Int) : ℚ) = (l.map fun x => ((f x : Int) : ℚ)).sum := by
  induction l with
  | nil => rfl
  | cons a t ih => simp only [List.map_cons, List.sum_cons, Int.cast_add, ih]

lemma sum_map_le_sum_map_rat {α : Type} (l : List α) (f g : α → ℚ)
    (h : ∀ x ∈ l, f x ≤ g x) : (l.map f).sum ≤ (l.map g).sum := by
  induction l with
  | nil => simp
  | cons a t ih =>
    simp only [List.map_cons, List.sum_cons]
    exact add_le_add (h a (List.mem_cons_self a t))
      (ih fun x hx => h x (List.mem_cons_of_mem a hx))

lemma foldl_choice_mem (t : List TempDistRow) :
    ∀ h : TempDistRow,
      t.foldl (fun best r => if lrBetter best r then r else best) h ∈ h :: t := by
  induction t with
  | nil => intro h; exact List.mem_singleton.2 rfl
  | cons a t ih =>
    intro h
    rw [List.foldl_cons]
    by_cases hc : lrBetter h a
    · rw [if_pos hc]
      rcases List.mem_cons.1 (ih a) with h1 | h1
      · rw [h1]; exact List.mem_cons_of_mem _ (List.mem_cons_self a t)
      · exact List.mem_cons_of_mem _ (List.mem_cons_of_mem a h1)
    · rw [if_neg hc]
      rcases List.mem_cons.1 (ih h) with h1 | h1
      · rw [h1]; exact List.mem_cons_self h (a :: t)
      · exact List.mem_cons_of_mem _ (List.mem_cons_of_mem a h1)

lemma pairwise_key_unique {rows : List TempDistRow}
    (hp : rows.Pairwise fun a b => a.main_id ≠ b.main_id) :
    ∀ a ∈ rows, ∀ b ∈ rows, a.main_id = b.main_id → a = b := by
  induction rows with
  | nil => intro a ha; exact absurd ha (List.not_mem_nil a)
  | cons x t ih =>
    have hx := List.pairwise_cons.1 hp
    intro a ha b hb hab
    rcases List.mem_cons.1 ha with rfl | ha' <;> rcases List.mem_cons.1 hb with rfl | hb'
    · rfl
    · exact absurd hab (hx.1 b hb')
    · exact absurd hab.symm (hx.1 a ha')
    · exact ih hx.2 a ha' b hb' hab

/-! Per-row facts about the water-filling pass. -/

lemma deltaFor_nonneg (c l t : Int) (r : TempDistRow) : 0 ≤ deltaFor c l t r := by
  unfold deltaFor
  by_cases he : isEligible c r
  · rw [if_pos he]
    by_cases hd : 0 < min ⌊((l * residualOf c r : Int) : ℚ) / (t : ℚ)⌋ (c - r.share)
    · rw [if_pos hd]; exact le_of_lt hd
    · rw [if_neg hd]
  · rw [if_neg he]

lemma applyDelta_share (c l t : Int) (r : TempDistRow) :
    (applyDelta c l t r).share = r.share + deltaFor c l t r := by
  unfold applyDelta
  by_cases hd : 0 < deltaFor c l t r
  · rw [if_pos hd]
  · rw [if_neg hd]
    have : deltaFor c l t r = 0 :=
      le_antisymm (not_lt.1 hd) (deltaFor_nonneg c l t r)
    rw [this, add_zero]

lemma applyDelta_main_id (c l t : Int) (r : TempDistRow) :
    (applyDelta c l t r).main_id = r.main_id := by
  unfold applyDelta
  by_cases hd : 0 < deltaFor c l t r
  · rw [if_pos hd]
  · rw [if_neg hd]

lemma applyDelta_share_le (c l t : Int) (r : TempDistRow) (h : r.share ≤ c) :
    (applyDelta c l t r).share ≤ c := by
  rw [applyDelta_share]
  unfold deltaFor
  by_cases he : isEligible c r
  · rw [if_pos he]
    by_cases hd : 0 < min ⌊((l * residualOf c r : Int) : ℚ) / (t : ℚ)⌋ (c - r.share)
    · rw [if_pos hd]
      have := min_le_right ⌊((l * residualOf c r : Int) : ℚ) / (t : ℚ)⌋ (c - r.share)
      omega
    · rw [if_neg hd]; omega
  · rw [if_neg he]; omega

lemma applyDelta_share_nonneg (c l t : Int) (r : TempDistRow) (h : 0 ≤ r.share) :
    0 ≤ (applyDelta c l t r).share := by
  rw [applyDelta_share]
  have := deltaFor_nonneg c l t r
  omega

lemma eligible_residual_pos (c : Int) (r : TempDistRow) (he : isEligible c r = true) :
    1 ≤ residualOf c r := by
  have h1 : r.share < c := of_decide_eq_true (Bool.and_elim_left he)
  have h2 : r.share < r.raw_share := of_decide_eq_true (Bool.and_elim_right he)
  unfold residualOf
  have : r.share + 1 ≤ min r.raw_share c := le_min (by omega) (by omega)
  omega

lemma totalResidual_nonneg (c : Int) (rows : List TempDistRow) :
    0 ≤ totalResidual c rows := by
  unfold totalResidual
  apply List.sum_nonneg
  intro x hx
  rcases List.mem_map.1 hx with ⟨r, hr, rfl⟩
  have := eligible_residual_pos c r (List.mem_filter.1 hr).2
  omega

lemma deltaFor_cast_le (c l : Int) (r : TempDistRow) (tr : Int)
    (hl : 0 < l) (htr : 0 < tr) (he : isEligible c r = true) :
    ((deltaFor c l tr r : Int) : ℚ) ≤ ((l * residualOf c r : Int) : ℚ) / (tr : ℚ) := by
  have hq : (0 : ℚ) ≤ ((l * residualOf c r : Int) : ℚ) / (tr : ℚ) := by
    apply div_nonneg
    · have h1 := eligible_residual_pos c r he
      have : (0 : Int) ≤ l * residualOf c r := by positivity
      exact_mod_cast this
    · exact_mod_cast le_of_lt htr
  unfold deltaFor
  rw [if_pos he]
  by_cases hd : 0 < min ⌊((l * residualOf c r : Int) : ℚ) / (tr : ℚ)⌋ (c - r.share)
  · rw [if_pos hd]
    calc ((min ⌊((l * residualOf c r : Int) : ℚ) / (tr : ℚ)⌋ (c - r.share) : Int) : ℚ)
        ≤ ((⌊((l * residualOf c r : Int) : ℚ) / (tr : ℚ)⌋ : Int) : ℚ) := by
          exact_mod_cast min_le_left _ _
      _ ≤ ((l * residualOf c r : Int) : ℚ) / (tr : ℚ) := Int.floor_le _
  · rw [if_neg hd]
    exact_mod_cast hq

lemma round_delta_sum_le (c l : Int) (rows : List TempDistRow)
    (hl : 0 < l) (htr : totalResidual c rows ≠ 0) :
    (rows.map (deltaFor c l (totalResidual c rows))).sum ≤ l := by
  set tr := totalResidual c rows with htrdef
  have htr0 : 0 < tr := lt_of_le_of_ne (totalResidual_nonneg c rows) (Ne.symm htr)
  have hfilter :
      ((rows.filter (isEligible c)).map (deltaFor c l tr)).sum =
        (rows.map (deltaFor c l tr)).sum := by
    apply sum_map_filter_of_zero
    intro r _ hr
    unfold deltaFor
    rw [if_neg (by simp [hr])]
  rw [← hfilter]
  have hcast :
      ((((rows.filter (isEligible c)).map (deltaFor c l tr)).sum : Int) : ℚ) ≤ (l : ℚ) := by
    rw [cast_sum_map_int]
    have hle :
        ((rows.filter (isEligible c)).map fun r => ((deltaFor c l tr r : Int) : ℚ)).sum ≤
          ((rows.filter (isEligible c)).map fun r =>
            ((l * residualOf c r : Int) : ℚ) / (tr : ℚ)).sum := by
      apply sum_map_le_sum_map_rat
      intro r hr
      exact deltaFor_cast_le c l r tr hl htr0 (List.mem_filter.1 hr).2
    refine le_trans hle ?_
    have hdiv :
        ((rows.filter (isEligible c)).map fun r =>
          ((l * residualOf c r : Int) : ℚ) / (tr : ℚ)).sum =
          (((rows.filter (isEligible c)).map fun r =>
            ((residualOf c r : Int) : ℚ)).sum) * ((l : ℚ) / (tr : ℚ)) := by
      rw [← List.sum_map_mul_right]
      congr 1
      apply List.map_congr_left
      intro r _
      push_cast
      ring
    rw [hdiv]
    have hsum :
        (((rows.filter (isEligible c)).map fun r =>
          ((residualOf c r : Int) : ℚ)).sum) = (tr : ℚ) := by
      rw [← cast_sum_map_int]
      rw [htrdef]
      rfl
    rw [hsum]
    rw [mul_div_assoc']
    rw [mul_comm, mul_div_assoc]
    rw [div_self (by exact_mod_cast ne_of_gt htr0), mul_one]
  exact_mod_cast hcast

/-! Step equations and invariants of the water-filling loop. -/

lemma sumShares_waterRound (c l t : Int) (rows : List TempDistRow) :
    sumShares (rows.map (applyDelta c l t)) =
      sumShares rows + (rows.map (deltaFor c l t)).sum := by
  unfold sumShares
  rw [List.map_map]
  have h : ((fun r => r.share) ∘ applyDelta c l t) = fun r => r.share + deltaFor c l t r := by
    funext r; exact applyDelta_share c l t r
  rw [h, sum_map_add_int]

lemma waterLoop_succ_nonpos (c : Int) (fuel : Nat) (rows : List TempDistRow) (l : Int)
    (hl : ¬ 0 < l) : waterLoop c (fuel + 1) (rows, l) = (rows, l) := by
  simp only [waterLoop]
  rw [if_neg hl]

lemma waterLoop_succ_tr0 (c : Int) (fuel : Nat) (rows : List TempDistRow) (l : Int)
    (hl : 0 < l) (htr : totalResidual c rows = 0) :
    waterLoop c (fuel + 1) (rows, l) = (rows, l) := by
  simp only [waterLoop]
  rw [if_pos hl, if_pos htr]

lemma waterLoop_succ_da0 (c : Int) (fuel : Nat) (rows : List TempDistRow) (l : Int)
    (hl : 0 < l) (htr : ¬ totalResidual c rows = 0)
    (hda : (rows.map (deltaFor c l (totalResidual c rows))).sum = 0) :
    waterLoop c (fuel + 1) (rows, l) =
      (rows.map (applyDelta c l (totalResidual c rows)),
        l - (rows.map (deltaFor c l (totalResidual c rows))).sum) := by
  simp only [waterLoop]
  rw [if_pos hl, if_neg htr, if_pos hda]

lemma waterLoop_succ_step (c : Int) (fuel : Nat) (rows : List TempDistRow) (l : Int)
    (hl : 0 < l) (htr : ¬ totalResidual c rows = 0)
    (hda : ¬ (rows.map (deltaFor c l (totalResidual c rows))).sum = 0) :
    waterLoop c (fuel + 1) (rows, l) =
      waterLoop c fuel (rows.map (applyDelta c l (totalResidual c rows)),
        l - (rows.map (deltaFor c l (totalResidual c rows))).sum) := by
  simp only [waterLoop]
  rw [if_pos hl, if_neg htr, if_neg hda]

lemma waterLoop_spec (c : Int) : ∀ (fuel : Nat) (rows : List TempDistRow) (l : Int),
    (waterLoop c fuel (rows, l)).1.map (fun r => r.main_id) = rows.map (fun r => r.main_id) ∧
    sumShares (waterLoop c fuel (rows, l)).1 + (waterLoop c fuel (rows, l)).2 =
      sumShares rows + l ∧
    (0 ≤ l → 0 ≤ (waterLoop c fuel (rows, l)).2) ∧
    ((∀ r ∈ rows, r.share ≤ c) → ∀ r ∈ (waterLoop c fuel (rows, l)).1, r.share ≤ c) ∧
    ((∀ r ∈ rows, 0 ≤ r.share) → ∀ r ∈ (waterLoop c fuel (rows, l)).1, 0 ≤ r.share) := by
  intro fuel
  induction fuel with
  | zero =>
    intro rows l
    refine ⟨rfl, rfl, fun h => h, fun h => h, fun h => h⟩
  | succ n ih =>
    intro rows l
    by_cases hl : 0 < l
    · by_cases htr : totalResidual c rows = 0
      · rw [waterLoop_succ_tr0 c n rows l hl htr]
        exact ⟨rfl, rfl, fun h => h, fun h => h, fun h => h⟩
      · have hmain2 : (rows.map (applyDelta c l (totalResidual c rows))).map
            (fun r => r.main_id) = rows.map (fun r => r.main_id) := by
          rw [List.map_map]
          apply List.map_congr_left
          intro r _
          exact applyDelta_main_id c l (totalResidual c rows) r
        have hsum2 := sumShares_waterRound c l (totalResidual c rows) rows
        have hcap2 : (∀ r ∈ rows, r.share ≤ c) →
            ∀ r ∈ rows.map (applyDelta c l (totalResidual c rows)), r.share ≤ c := by
          intro h r2 hr2
          rcases List.mem_map.1 hr2 with ⟨r, hr, rfl⟩
          exact applyDelta_share_le c l _ r (h r hr)
        have hnn2 : (∀ r ∈ rows, 0 ≤ r.share) →
            ∀ r ∈ rows.map (applyDelta c l (totalResidual c rows)), 0 ≤ r.share := by
          intro h r2 hr2
          rcases List.mem_map.1 hr2 with ⟨r, hr, rfl⟩
          exact applyDelta_share_nonneg c l _ r (h r hr)
        have hdal : (rows.map (deltaFor c l (totalResidual c rows))).sum ≤ l :=
          round_delta_sum_le c l rows hl htr
        by_cases hda0 : (rows.map (deltaFor c l (totalResidual c rows))).sum = 0
        · rw [waterLoop_succ_da0 c n rows l hl htr hda0]
          refine ⟨hmain2, ?_, fun _ => by omega, hcap2, hnn2⟩
          rw [hsum2]
          omega
        · rw [waterLoop_succ_step c n rows l hl htr hda0]
          rcases ih (rows.map (applyDelta c l (totalResidual c rows)))
            (l - (rows.map (deltaFor c l (totalResidual c rows))).sum) with
            ⟨ihm, ihs, ihl, ihc, ihn⟩
          refine ⟨ihm.trans hmain2, ?_, fun _ => ihl (by omega), fun h => ihc (hcap2 h),
            fun h => ihn (hnn2 h)⟩
          rw [ihs, hsum2]
          omega
    · rw [waterLoop_succ_nonpos c n rows l hl]
      exact ⟨rfl, rfl, fun h => h, fun h => h, fun h => h⟩

lemma waterLoop_fix_tr0 (c : Int) (fuel : Nat) (rows : List TempDistRow) (l : Int)
    (htr : totalResidual c rows = 0) : waterLoop c fuel (rows, l) = (rows, l) := by
  cases fuel with
  | zero => rfl
  | succ n =>
    by_cases hl : 0 < l
    · exact waterLoop_succ_tr0 c n rows l hl htr
    · exact waterLoop_succ_nonpos c n rows l hl

/-! Step equations and invariants of the largest-remainder loop. -/

lemma bumpRow_main_id (c : Int) (mid : Nat) (r : TempDistRow) :
    (bumpRow c mid r).main_id = r.main_id := by
  unfold bumpRow
  by_cases h : r.main_id == mid
  · rw [if_pos h]
  · rw [if_neg (by simpa using h)]

lemma bumpRow_of_ne (c : Int) (mid : Nat) (r : TempDistRow) (h : r.main_id ≠ mid) :
    bumpRow c mid r = r := by
  unfold bumpRow
  rw [if_neg (by simpa using h)]

lemma bumpRow_share_of_eq (c : Int) (mid : Nat) (r : TempDistRow) (h : r.main_id = mid) :
    (bumpRow c mid r).share = r.share + 1 := by
  unfold bumpRow
  rw [if_pos (by simpa using h)]

lemma lrPick_none_iff (c : Int) (rows : List TempDistRow) :
    lrPick c rows = none ↔ ∀ r ∈ rows, ¬ r.share < c := by
  unfold lrPick
  cases h : rows.filter fun r => decide (r.share < c) with
  | nil =>
    simp only [true_iff]
    intro r hr hlt
    have : r ∈ rows.filter fun r => decide (r.share < c) :=
      List.mem_filter.2 ⟨hr, by simpa using hlt⟩
    rw [h] at this
    exact absurd this (List.not_mem_nil r)
  | cons a t =>
    have ha : a ∈ rows.filter fun r => decide (r.share < c) := by
      rw [h]; exact List.mem_cons_self a t
    rcases List.mem_filter.1 ha with ⟨hmem, hlt⟩
    constructor
    · intro habs; exact absurd habs (by simp)
    · intro hall; exact (hall a hmem (of_decide_eq_true hlt)).elim

lemma lrPick_some_mem (c : Int) (rows : List TempDistRow) (mid : Nat)
    (h : lrPick c rows = some mid) :
    ∃ r ∈ rows, r.main_id = mid ∧ r.share < c := by
  unfold lrPick at h
  revert h
  cases hf : rows.filter fun r => decide (r.share < c) with
  | nil => intro h; exact absurd h (by simp)
  | cons a t =>
    intro h
    have hm := foldl_choice_mem t a
    have hin : (t.foldl (fun best r => if lrBetter best r then r else best) a) ∈
        rows.filter fun r => decide (r.share < c) := by
      rw [hf]; exact hm
    rcases List.mem_filter.1 hin with ⟨hmem, hlt⟩
    refine ⟨_, hmem, ?_, by simpa using hlt⟩
    exact Option.some_injective _ h

lemma map_eq_self_of_forall {α : Type} (f : α → α) :
    ∀ l : List α, (∀ x ∈ l, f x = x) → l.map f = l := by
  intro l
  induction l with
  | nil => intro _; rfl
  | cons a t ih =>
    intro h
    rw [List.map_cons, h a (List.mem_cons_self a t),
      ih fun x hx => h x (List.mem_cons_of_mem a hx)]

lemma mainIds_map_bump (c : Int) (mid : Nat) (rows : List TempDistRow) :
    (rows.map (bumpRow c mid)).map (fun r => r.main_id) = rows.map (fun r => r.main_id) := by
  rw [List.map_map]
  apply List.map_congr_left
  intro r _
  exact bumpRow_main_id c mid r

lemma sumShares_map_bump (c : Int) (mid : Nat) :
    ∀ rows : List TempDistRow,
      (rows.Pairwise fun a b => a.main_id ≠ b.main_id) →
      (∃ r0 ∈ rows, r0.main_id = mid) →
      sumShares (rows.map (bumpRow c mid)) = sumShares rows + 1 := by
  intro rows
  induction rows with
  | nil => intro _ h; rcases h with ⟨r0, h0, _⟩; exact absurd h0 (List.not_mem_nil r0)
  | cons a t ih =>
    intro hp hex
    have hpc := List.pairwise_cons.1 hp
    rcases hex with ⟨r0, h0, hmid⟩
    rcases List.mem_cons.1 h0 with rfl | h0t
    · have ht : t.map (bumpRow c mid) = t :=
        map_eq_self_of_forall _ t fun b hb =>
          bumpRow_of_ne c mid b (by rw [← hmid]; exact (hpc.1 b hb).symm)
      unfold sumShares
      simp only [List.map_cons, List.sum_cons, ht,
        bumpRow_share_of_eq c mid r0 hmid]
      omega
    · have ha : bumpRow c mid a = a :=
        bumpRow_of_ne c mid a (by rw [← hmid]; exact hpc.1 r0 h0t)
      have hih := ih hpc.2 ⟨r0, h0t, hmid⟩
      unfold sumShares at hih ⊢
      simp only [List.map_cons, List.sum_cons, ha]
      omega

lemma share_le_map_bump (c : Int) (mid : Nat) (rows : List TempDistRow)
    (hp : rows.Pairwise fun a b => a.main_id ≠ b.main_id)
    (hex : ∃ r0 ∈ rows, r0.main_id = mid ∧ r0.share < c)
    (hall : ∀ r ∈ rows, r.share ≤ c) :
    ∀ r ∈ rows.map (bumpRow c mid), r.share ≤ c := by
  rcases hex with ⟨r0, h0, hmid, hlt⟩
  intro r2 hr2
  rcases List.mem_map.1 hr2 with ⟨r, hr, rfl⟩
  by_cases hm : r.main_id = mid
  · have : r = r0 := pairwise_key_unique hp r hr r0 h0 (hm.trans hmid.symm)
    rw [bumpRow_share_of_eq c mid r hm, this]
    omega
  · rw [bumpRow_of_ne c mid r hm]
    exact hall r hr

lemma share_nonneg_map_bump (c : Int) (mid : Nat) (rows : List TempDistRow)
    (hall : ∀ r ∈ rows, 0 ≤ r.share) :
    ∀ r ∈ rows.map (bumpRow c mid), 0 ≤ r.share := by
  intro r2 hr2
  rcases List.mem_map.1 hr2 with ⟨r, hr, rfl⟩
  by_cases hm : r.main_id = mid
  · rw [bumpRow_share_of_eq c mid r hm]
    have := hall r hr
    omega
  · rw [bumpRow_of_ne c mid r hm]
    exact hall r hr

lemma lrLoop_succ_nonpos (c : Int) (fuel : Nat) (rows : List TempDistRow) (l : Int)
    (hl : ¬ 0 < l) : lrLoop c (fuel + 1) (rows, l) = (rows, l) := by
  simp only [lrLoop]
  rw [if_neg hl]

lemma lrLoop_succ_none (c : Int) (fuel : Nat) (rows : List TempDistRow) (l : Int)
    (hl : 0 < l) (hpick : lrPick c rows = none) :
    lrLoop c (fuel + 1) (rows, l) = (rows, l) := by
  simp only [lrLoop]
  rw [if_pos hl, hpick]

lemma lrLoop_succ_some (c : Int) (fuel : Nat) (rows : List TempDistRow) (l : Int) (mid : Nat)
    (hl : 0 < l) (hpick : lrPick c rows = some mid) :
    lrLoop c (fuel + 1) (rows, l) = lrLoop c fuel (rows.map (bumpRow c mid), l - 1) := by
  simp only [lrLoop]
  rw [if_pos hl, hpick]

lemma lrLoop_spec (c : Int) : ∀ (fuel : Nat) (rows : List TempDistRow) (l : Int),
    (lrLoop c fuel (rows, l)).1.map (fun r => r.main_id) = rows.map (fun r => r.main_id) ∧
    ((rows.map fun r => r.main_id).Nodup →
      sumShares (lrLoop c fuel (rows, l)).1 + (lrLoop c fuel (rows, l)).2 =
        sumShares rows + l) ∧
    (0 ≤ l → 0 ≤ (lrLoop c fuel (rows, l)).2) ∧
    ((rows.map fun r => r.main_id).Nodup → (∀ r ∈ rows, r.share ≤ c) →
      ∀ r ∈ (lrLoop c fuel (rows, l)).1, r.share ≤ c) ∧
    ((∀ r ∈ rows, 0 ≤ r.share) → ∀ r ∈ (lrLoop c fuel (rows, l)).1, 0 ≤ r.share) ∧
    (0 ≤ l → l.toNat ≤ fuel →
      ((lrLoop c fuel (rows, l)).2 = 0 ∨ lrPick c (lrLoop c fuel (rows, l)).1 = none)) := by
  intro fuel
  induction fuel with
  | zero =>
    intro rows l
    refine ⟨rfl, fun _ => rfl, fun h => h, fun _ h => h, fun h => h, fun h1 h2 => ?_⟩
    left
    show l = 0
    omega
  | succ n ih =>
    intro rows l
    by_cases hl : 0 < l
    · cases hpick : lrPick c rows with
      | none =>
        rw [lrLoop_succ_none c n rows l hl hpick]
        exact ⟨rfl, fun _ => rfl, fun h => h, fun _ h => h, fun h => h, fun _ _ => Or.inr hpick⟩
      | some mid =>
        rw [lrLoop_succ_some c n rows l mid hl hpick]
        rcases ih (rows.map (bumpRow c mid)) (l - 1) with ⟨ihm, ihs, ihl, ihc, ihn, ihe⟩
        have hmain2 := mainIds_map_bump c mid rows
        rcases lrPick_some_mem c rows mid hpick with ⟨r0, h0, hmid, hshare⟩
        refine ⟨ihm.trans hmain2, ?_, fun _ => ihl (by omega), ?_, ?_, ?_⟩
        · intro hnd
          have hpw : rows.Pairwise fun a b => a.main_id ≠ b.main_id :=
            List.pairwise_map.1 hnd
          have hnd2 : ((rows.map (bumpRow c mid)).map fun r => r.main_id).Nodup := by
            rw [hmain2]; exact hnd
          rw [ihs hnd2, sumShares_map_bump c mid rows hpw ⟨r0, h0, hmid⟩]
          omega
        · intro hnd hall
          have hpw : rows.Pairwise fun a b => a.main_id ≠ b.main_id :=
            List.pairwise_map.1 hnd
          have hnd2 : ((rows.map (bumpRow c mid)).map fun r => r.main_id).Nodup := by
            rw [hmain2]; exact hnd
          exact ihc hnd2 (share_le_map_bump c mid rows hpw ⟨r0, h0, hmid, hshare⟩ hall)
        · intro hall
          exact ihn (share_nonneg_map_bump c mid rows hall)
        · intro h1 h2
          exact ihe (by omega) (by omega)
    · rw [lrLoop_succ_nonpos c n rows l hl]
      refine ⟨rfl, fun _ => rfl, fun h => h, fun _ h => h, fun h => h, fun h1 _ => ?_⟩
      left
      show l = 0
      omega

lemma lrLoop_fix (c : Int) (rows : List TempDistRow) (l : Int)
    (h : l = 0 ∨ lrPick c rows = none) :
    ∀ fuel : Nat, lrLoop c fuel (rows, l) = (rows, l) := by
  intro fuel
  cases fuel with
  | zero => rfl
  | succ n =>
    rcases h with rfl | hpick
    · exact lrLoop_succ_nonpos c n rows 0 (by omega)
    · by_cases hl : 0 < l
      · exact lrLoop_succ_none c n rows l hl hpick
      · exact lrLoop_succ_nonpos c n rows l hl

/-! Facts about the initial allocation and the combined pipeline. -/

lemma initRow_share (S R c : Int) (r : TempDistRow) :
    (initRow S R c r).share = min ⌊(r.score_sum : ℚ) / (S : ℚ) * (R : ℚ)⌋ c := rfl

lemma initRow_main_id (S R c : Int) (r : TempDistRow) :
    (initRow S R c r).main_id = r.main_id := rfl

lemma sumShares_init_le (c R S : Int) (rows0 : List TempDistRow)
    (hS : sumScores rows0 = S) (hS0 : S ≠ 0) :
    sumShares (rows0.map (initRow S R c)) ≤ R := by
  have hSne : (S : ℚ) ≠ 0 := Int.cast_ne_zero.2 hS0
  have hq : ((sumShares (rows0.map (initRow S R c)) : Int) : ℚ) ≤ (R : ℚ) := by
    unfold sumShares
    rw [List.map_map, cast_sum_map_int]
    have h1 : (rows0.map fun r => (((initRow S R c) r).share : ℚ)).sum ≤
        (rows0.map fun r => (r.score_sum : ℚ) * ((R : ℚ) / (S : ℚ))).sum := by
      apply sum_map_le_sum_map_rat
      intro r _
      rw [initRow_share]
      calc ((min ⌊(r.score_sum : ℚ) / (S : ℚ) * (R : ℚ)⌋ c : Int) : ℚ)
          ≤ ((⌊(r.score_sum : ℚ) / (S : ℚ) * (R : ℚ)⌋ : Int) : ℚ) := by
            exact_mod_cast min_le_left _ _
        _ ≤ (r.score_sum : ℚ) / (S : ℚ) * (R : ℚ) := Int.floor_le _
        _ = (r.score_sum : ℚ) * ((R : ℚ) / (S : ℚ)) := by ring
    refine le_trans h1 ?_
    rw [List.sum_map_mul_right, ← cast_sum_map_int]
    have hS2 : (rows0.map fun r => r.score_sum).sum = S := hS
    rw [hS2]
    have hfin : (S : ℚ) * ((R : ℚ) / (S : ℚ)) = (R : ℚ) := by
      field_simp
    rw [hfin]
  exact_mod_cast hq

lemma initRow_share_le (S R c : Int) (r : TempDistRow) : (initRow S R c r).share ≤ c := by
  rw [initRow_share]
  exact min_le_right _ _

lemma initRow_share_nonneg (S R c : Int) (r : TempDistRow)
    (hs : 0 ≤ r.score_sum) (hSpos : 0 < S) (hR : 0 < R) (hc : 0 ≤ c) :
    0 ≤ (initRow S R c r).share := by
  rw [initRow_share]
  apply le_min
  · apply Int.le_floor.2
    push_cast
    apply mul_nonneg
    · apply div_nonneg
      · exact_mod_cast hs
      · exact_mod_cast le_of_lt hSpos
    · exact_mod_cast le_of_lt hR
  · exact hc

lemma sumScores_pos (rows0 : List TempDistRow) (S : Int)
    (hS : sumScores rows0 = S) (hS0 : S ≠ 0) (hnn : ∀ r ∈ rows0, 0 ≤ r.score_sum) :
    0 < S := by
  have h0 : 0 ≤ S := by
    rw [← hS]
    show 0 ≤ (rows0.map fun r => r.score_sum).sum
    apply List.sum_nonneg
    intro x hx
    rcases List.mem_map.1 hx with ⟨r, hr, rfl⟩
    exact hnn r hr
  omega

lemma allocate_spec (c R S : Int) (rows0 : List TempDistRow)
    (hS : sumScores rows0 = S) (hS0 : S ≠ 0) :
    (allocate c R S rows0).1.map (fun r => r.main_id) = rows0.map (fun r => r.main_id) ∧
    0 ≤ (allocate c R S rows0).2 ∧
    ((rows0.map fun r => r.main_id).Nodup →
      sumShares (allocate c R S rows0).1 + (allocate c R S rows0).2 = R) ∧
    ((rows0.map fun r => r.main_id).Nodup → ∀ r ∈ (allocate c R S rows0).1, r.share ≤ c) ∧
    ((allocate c R S rows0).2 = 0 ∨ lrPick c (allocate c R S rows0).1 = none) ∧
    ((∀ r ∈ rows0, 0 ≤ r.score_sum) → 0 < R → 0 ≤ c →
      ∀ r ∈ (allocate c R S rows0).1, 0 ≤ r.share) := by
  have hmain1 : (rows0.map (initRow S R c)).map (fun r => r.main_id) =
      rows0.map (fun r => r.main_id) := by
    rw [List.map_map]
    apply List.map_congr_left
    intro r _
    exact initRow_main_id S R c r
  have hlo0 : 0 ≤ R - sumShares (rows0.map (initRow S R c)) := by
    have := sumShares_init_le c R S rows0 hS hS0
    omega
  rcases waterLoop_spec c max_realloc_rounds (rows0.map (initRow S R c))
      (R - sumShares (rows0.map (initRow S R c))) with ⟨wm, ws, wl, wc, wn⟩
  have hwlo := wl hlo0
  rcases lrLoop_spec c (waterLoop c max_realloc_rounds (rows0.map (initRow S R c),
      R - sumShares (rows0.map (initRow S R c)))).2.toNat
      (waterLoop c max_realloc_rounds (rows0.map (initRow S R c),
        R - sumShares (rows0.map (initRow S R c)))).1
      (waterLoop c max_realloc_rounds (rows0.map (initRow S R c),
        R - sumShares (rows0.map (initRow S R c)))).2 with ⟨lm, ls, ll, lc, ln, le⟩
  have halloc : allocate c R S rows0 =
      lrLoop c (waterLoop c max_realloc_rounds (rows0.map (initRow S R c),
        R - sumShares (rows0.map (initRow S R c)))).2.toNat
        ((waterLoop c max_realloc_rounds (rows0.map (initRow S R c),
          R - sumShares (rows0.map (initRow S R c)))).1,
         (waterLoop c max_realloc_rounds (rows0.map (initRow S R c),
          R - sumShares (rows0.map (initRow S R c)))).2) := rfl
  rw [halloc]
  refine ⟨(lm.trans wm).trans hmain1, ll hwlo, ?_, ?_, le hwlo (by omega), ?_⟩
  · intro hnd
    have hnd1 : ((waterLoop c max_realloc_rounds (rows0.map (initRow S R c),
        R - sumShares (rows0.map (initRow S R c)))).1.map fun r => r.main_id).Nodup := by
      rw [wm, hmain1]; exact hnd
    rw [ls hnd1, ws]
    omega
  · intro hnd
    have hnd1 : ((waterLoop c max_realloc_rounds (rows0.map (initRow S R c),
        R - sumShares (rows0.map (initRow S R c)))).1.map fun r => r.main_id).Nodup := by
      rw [wm, hmain1]; exact hnd
    apply lc hnd1
    apply wc
    intro r hr
    rcases List.mem_map.1 hr with ⟨r0, _, rfl⟩
    exact initRow_share_le S R c r0
  · intro hnn hR hc
    have hSpos : 0 < S := sumScores_pos rows0 S hS hS0 hnn
    apply ln
    apply wn
    intro r hr
    rcases List.mem_map.1 hr with ⟨r0, hr0, rfl⟩
    exact initRow_share_nonneg S R c r0 (hnn r0 hr0) hSpos hR hc

/-! Facts about the aggregation step. -/

lemma aggregatedRows_mainIds (event_uuid : Nat) (thr : Int) (scores : List Score)
    (players : List Player) :
    (aggregatedRows event_uuid thr scores players).map (fun r => r.main_id) =
      ((resolvedPairs event_uuid thr scores players).map Prod.fst).dedup := by
  unfold aggregatedRows
  rw [List.map_map]
  exact List.map_id _

lemma aggregatedRows_nodup (event_uuid : Nat) (thr : Int) (scores : List Score)
    (players : List Player) :
    ((aggregatedRows event_uuid thr scores players).map fun r => r.main_id).Nodup := by
  rw [aggregatedRows_mainIds]
  exact List.nodup_dedup _

lemma resolvedPairs_snd_ge (event_uuid : Nat) (thr : Int) (scores : List Score)
    (players : List Player) (q : Nat × Int)
    (hq : q ∈ resolvedPairs event_uuid thr scores players) : thr ≤ q.2 := by
  unfold resolvedPairs at hq
  rcases List.mem_filterMap.1 hq with ⟨s, hs, hmap⟩
  rcases Option.map_eq_some'.1 hmap with ⟨m, _, rfl⟩
  have hqual := (List.mem_filter.1 hs).2
  unfold qualifies at hqual
  exact of_decide_eq_true (Bool.and_elim_right (Bool.and_elim_left hqual))

lemma resolvedPairs_fst_resolved (event_uuid : Nat) (thr : Int) (scores : List Score)
    (players : List Player) (q : Nat × Int)
    (hq : q ∈ resolvedPairs event_uuid thr scores players) :
    ∃ pid, resolveMainId players pid = some q.1 := by
  unfold resolvedPairs at hq
  rcases List.mem_filterMap.1 hq with ⟨s, _, hmap⟩
  rcases Option.map_eq_some'.1 hmap with ⟨m, hres, rfl⟩
  exact ⟨s.player_id, hres⟩

lemma aggregatedRows_score_sum_nonneg (event_uuid : Nat) (thr : Int) (scores : List Score)
    (players : List Player) (hthr : 0 ≤ thr) :
    ∀ r ∈ aggregatedRows event_uuid thr scores players, 0 ≤ r.score_sum := by
  intro r hr
  unfold aggregatedRows at hr
  rcases List.mem_map.1 hr with ⟨m, _, rfl⟩
  apply List.sum_nonneg
  intro x hx
  rcases List.mem_map.1 hx with ⟨q, hq, rfl⟩
  have := resolvedPairs_snd_ge event_uuid thr scores players q (List.mem_filter.1 hq).1
  omega

lemma aggregatedRows_main_resolved (event_uuid : Nat) (thr : Int) (scores : List Score)
    (players : List Player) (r : TempDistRow)
    (hr : r ∈ aggregatedRows event_uuid thr scores players) :
    ∃ pid, resolveMainId players pid = some r.main_id := by
  unfold aggregatedRows at hr
  rcases List.mem_map.1 hr with ⟨m, hm, rfl⟩
  have hm2 : m ∈ (resolvedPairs event_uuid thr scores players).map Prod.fst :=
    List.mem_dedup.1 hm
  rcases List.mem_map.1 hm2 with ⟨q, hq, rfl⟩
  exact resolvedPairs_fst_resolved event_uuid thr scores players q hq

/-! Branch equations for the distribution procedure. -/

lemma run_eq_noop_no_remaining (event_uuid medal_uuid actor : Nat) (totals : EventTotals)
    (scores : List Score) (players : List Player) (h : remaining_of totals ≤ 0) :
    run_weighted_distribution_v2 event_uuid medal_uuid actor totals scores players =
      { result := RunResult.noop_no_remaining, new_txs := [], totals := totals } := by
  unfold run_weighted_distribution_v2
  rw [if_pos h]

lemma run_eq_noop_no_scores (event_uuid medal_uuid actor : Nat) (totals : EventTotals)
    (scores : List Score) (players : List Player) (h1 : ¬ remaining_of totals ≤ 0)
    (h2 : sumScores (aggregatedRows event_uuid totals.min_score_for_raffle scores players) = 0) :
    run_weighted_distribution_v2 event_uuid medal_uuid actor totals scores players =
      { result := RunResult.noop_no_scores (remaining_of totals), new_txs := [],
        totals := totals } := by
  unfold run_weighted_distribution_v2
  rw [if_neg h1, if_pos h2]

lemma run_eq_ok (event_uuid medal_uuid actor : Nat) (totals : EventTotals)
    (scores : List Score) (players : List Player) (h1 : ¬ remaining_of totals ≤ 0)
    (h2 : ¬ sumScores (aggregatedRows event_uuid totals.min_score_for_raffle scores players)
      = 0) :
    run_weighted_distribution_v2 event_uuid medal_uuid actor totals scores players =
      { result := RunResult.ok
          (((allocate (cap_of (remaining_of totals)) (remaining_of totals)
            (sumScores (aggregatedRows event_uuid totals.min_score_for_raffle scores players))
            (aggregatedRows event_uuid totals.min_score_for_raffle scores players)).1.filter
              fun r => decide (0 < r.share)).length)
          (remaining_of totals)
          ((((allocate (cap_of (remaining_of totals)) (remaining_of totals)
            (sumScores (aggregatedRows event_uuid totals.min_score_for_raffle scores players))
            (aggregatedRows event_uuid totals.min_score_for_raffle scores players)).1.filter
              fun r => decide (0 < r.share)).map fun r => r.share).sum)
          (remaining_of totals -
            (((allocate (cap_of (remaining_of totals)) (remaining_of totals)
            (sumScores (aggregatedRows event_uuid totals.min_score_for_raffle scores players))
            (aggregatedRows event_uuid totals.min_score_for_raffle scores players)).1.filter
              fun r => decide (0 < r.share)).map fun r => r.share).sum)
          (((allocate (cap_of (remaining_of totals)) (remaining_of totals)
            (sumScores (aggregatedRows event_uuid totals.min_score_for_raffle scores players))
            (aggregatedRows event_uuid totals.min_score_for_raffle scores players)).1.filter
              fun r => r.is_capped).length)
        new_txs := ((allocate (cap_of (remaining_of totals)) (remaining_of totals)
            (sumScores (aggregatedRows event_uuid totals.min_score_for_raffle scores players))
            (aggregatedRows event_uuid totals.min_score_for_raffle scores players)).1.filter
              fun r => decide (0 < r.share)).map fun r =>
          { player_id := r.main_id
            medal_id := medal_uuid
            amount := r.share
            transaction_type := "weighted_distribution"
            event_id := event_uuid
            description := "Avalon 50% score-based distribution (alt→main, cap reallocation)"
            created_by := actor }
        totals := { totals with
          distributed_amount := totals.distributed_amount +
            (((allocate (cap_of (remaining_of totals)) (remaining_of totals)
            (sumScores (aggregatedRows event_uuid totals.min_score_for_raffle scores players))
            (aggregatedRows event_uuid totals.min_score_for_raffle scores players)).1.filter
              fun r => decide (0 < r.share)).map fun r => r.share).sum } } := by
  unfold run_weighted_distribution_v2
  rw [if_neg h1, if_neg h2]

/-! Glue lemmas between the run outcome and the allocation pipeline. -/

lemma cap_of_nonneg (R : Int) (h : 0 < R) : 0 ≤ cap_of R := by
  unfold cap_of
  apply Int.le_floor.2
  push_cast
  apply mul_nonneg
  · exact_mod_cast le_of_lt h
  · norm_num

lemma sum_amounts_map (f : TempDistRow → LedgerTx) (hf : ∀ r, (f r).amount = r.share)
    (paid : List TempDistRow) :
    ((paid.map f).map fun t => t.amount).sum = (paid.map fun r => r.share).sum := by
  rw [List.map_map]
  exact congrArg List.sum (List.map_congr_left fun r _ => hf r)

lemma paid_sum_eq_total (rowsF : List TempDistRow) (hnn : ∀ r ∈ rowsF, 0 ≤ r.share) :
    ((rowsF.filter fun r => decide (0 < r.share)).map fun r => r.share).sum =
      (rowsF.map fun r => r.share).sum := by
  apply sum_map_filter_of_zero
  intro r hr h0
  have h1 : ¬ 0 < r.share := of_decide_eq_false h0
  have h2 := hnn r hr
  omega

/-- C1: exact conservation.  For every input state on which the run reaches the
commit step (neither `no_remaining` nor `no_scores` triggered, stated as
`0 < remaining` and a nonzero aggregated score sum), provided the threshold is
nonnegative (every qualifying score is then nonnegative) and at least one
aggregated player ends the allocation with headroom under the cap, the sum of
the amounts of the ledger transactions created by that single run equals the
remaining pot `total_amount - raffle_amount_used - distributed_amount` read at
the start of the run. -/
theorem conservation_exact (event_uuid medal_uuid actor : Nat) (totals : EventTotals)
    (scores : List Score) (players : List Player)
    (hthr : 0 ≤ totals.min_score_for_raffle)
    (h1 : 0 < remaining_of totals)
    (h2 : sumScores (aggregatedRows event_uuid totals.min_score_for_raffle scores players) ≠ 0)
    (hroom : ∃ r ∈ (allocate (cap_of (remaining_of totals)) (remaining_of totals)
        (sumScores (aggregatedRows event_uuid totals.min_score_for_raffle scores players))
        (aggregatedRows event_uuid totals.min_score_for_raffle scores players)).1,
      r.share < cap_of (remaining_of totals)) :
    (((run_weighted_distribution_v2 event_uuid medal_uuid actor totals scores
      players).new_txs).map fun t => t.amount).sum = remaining_of totals := by
  have h1' : ¬ remaining_of totals ≤ 0 := by omega
  rw [run_eq_ok event_uuid medal_uuid actor totals scores players h1' h2]
  rw [sum_amounts_map _ (fun r => rfl)]
  rcases allocate_spec (cap_of (remaining_of totals)) (remaining_of totals)
      (sumScores (aggregatedRows event_uuid totals.min_score_for_raffle scores players))
      (aggregatedRows event_uuid totals.min_score_for_raffle scores players) rfl h2 with
    ⟨_, _, hsum, _, hexit, hnn⟩
  have hnns : ∀ r ∈ (allocate (cap_of (remaining_of totals)) (remaining_of totals)
      (sumScores (aggregatedRows event_uuid totals.min_score_for_raffle scores players))
      (aggregatedRows event_uuid totals.min_score_for_raffle scores players)).1,
      0 ≤ r.share :=
    hnn (aggregatedRows_score_sum_nonneg event_uuid totals.min_score_for_raffle scores
      players hthr) h1 (cap_of_nonneg (remaining_of totals) h1)
  rw [paid_sum_eq_total _ hnns]
  have hzero : (allocate (cap_of (remaining_of totals)) (remaining_of totals)
      (sumScores (aggregatedRows event_uuid totals.min_score_for_raffle scores players))
      (aggregatedRows event_uuid totals.min_score_for_raffle scores players)).2 = 0 := by
    rcases hexit with h | h
    · exact h
    · rcases hroom with ⟨r, hr, hlt⟩
      exact absurd hlt ((lrPick_none_iff _ _).1 h r hr)
  have := hsum (aggregatedRows_nodup event_uuid totals.min_score_for_raffle scores players)
  unfold sumShares at this
  omega

def exTotals : EventTotals :=
  { total_amount := 110, raffle_amount_used := 0, distributed_amount := 0,
    min_score_for_raffle := 0 }

/-- Player number `i` of the eleven-player example state. -/
def exPlayer (i : Nat) : Player :=
  { id := i, is_alt := false, main_player_id := none, deleted_at := none }

def exPlayers : List Player :=
  [exPlayer 1, exPlayer 2, exPlayer 3, exPlayer 4, exPlayer 5, exPlayer 6, exPlayer 7,
   exPlayer 8, exPlayer 9, exPlayer 10, exPlayer 11]

/-- Score row of player `i` of the eleven-player example state. -/
def exScore (i : Nat) : Score :=
  { event_id := 0, player_id := i, score := 1, raw_score := 1, verified := true, created_by := 7 }

def exScores : List Score :=
  [exScore 1, exScore 2, exScore 3, exScore 4, exScore 5, exScore 6, exScore 7,
   exScore 8, exScore 9, exScore 10, exScore 11]

/-- Aggregated row of player `i` before allocation. -/
def exRow (m : Nat) : TempDistRow :=
  { main_id := m, score_sum := 1, raw_share := 0, share := 0, fractional := 0, is_capped := false }

/-- Aggregated row of player `i` after the initial allocation: the proportional
share of 110 among eleven equal scores is exactly 10, under the cap of 11. -/
def exRowInit (m : Nat) : TempDistRow :=
  { main_id := m, score_sum := 1, raw_share := 10, share := 10, fractional := 0,
    is_capped := false }

def exRows0 : List TempDistRow :=
  [exRow 1, exRow 2, exRow 3, exRow 4, exRow 5, exRow 6, exRow 7, exRow 8, exRow 9, exRow 10,
   exRow 11]

def exRows1 : List TempDistRow :=
  [exRowInit 1, exRowInit 2, exRowInit 3, exRowInit 4, exRowInit 5, exRowInit 6, exRowInit 7,
   exRowInit 8, exRowInit 9, exRowInit 10, exRowInit 11]

set_option maxRecDepth 2000 in
set_option maxHeartbeats 1000000 in
lemma exAgg : aggregatedRows 0 exTotals.min_score_for_raffle exScores exPlayers = exRows0 := by
  decide

set_option maxRecDepth 2000 in
lemma exInit : exRows0.map (initRow 11 110 11) = exRows1 := by decide

lemma exSumShares : sumShares exRows1 = 110 := by decide

lemma exSumScores : sumScores exRows0 = 11 := by decide

lemma exCap : cap_of (remaining_of exTotals) = 11 := by decide

lemma exAlloc : allocate 11 110 11 exRows0 = (exRows1, 0) := by
  unfold allocate
  simp only [exInit, exSumShares]
  norm_num
  rw [waterLoop_fix_tr0 11 max_realloc_rounds exRows1 0 (by decide)]
  rfl

lemma exRoom : ∃ r ∈ (allocate (cap_of (remaining_of exTotals)) (remaining_of exTotals)
    (sumScores (aggregatedRows 0 exTotals.min_score_for_raffle exScores exPlayers))
    (aggregatedRows 0 exTotals.min_score_for_raffle exScores exPlayers)).1,
    r.share < cap_of (remaining_of exTotals) := by
  rw [exAgg, exSumScores, exCap, show remaining_of exTotals = 110 from rfl, exAlloc]
  decide

/-- Witness for C1 at a concrete state: eleven verified players with score 1
each and a pot of 110; one run distributes exactly the full remaining 110
(each player gets 10, under the cap of 11). -/
theorem conservation_exact_witness :
    (((run_weighted_distribution_v2 0 5 9 exTotals exScores exPlayers).new_txs).map
      fun t => t.amount).sum = remaining_of exTotals :=
  conservation_exact 0 5 9 exTotals exScores exPlayers (by decide) (by decide)
    (by rw [exAgg, exSumScores]; decide) exRoom

/-- C2: cap respected.  Every ledger transaction created by one run of
`run_weighted_distribution_v2` has amount at most
`floor(remaining * 0.10)` computed from the pot remaining at the start of that
run; the bound is maintained through the initial allocation, every
water-filling delta and every largest-remainder increment. -/
theorem cap_respected (event_uuid medal_uuid actor : Nat) (totals : EventTotals)
    (scores : List Score) (players : List Player) (tx : LedgerTx)
    (htx : tx ∈ (run_weighted_distribution_v2 event_uuid medal_uuid actor totals scores
      players).new_txs) :
    tx.amount ≤ cap_of (remaining_of totals) := by
  by_cases h1 : remaining_of totals ≤ 0
  · rw [run_eq_noop_no_remaining event_uuid medal_uuid actor totals scores players h1] at htx
    exact absurd htx (List.not_mem_nil tx)
  by_cases h2 : sumScores (aggregatedRows event_uuid totals.min_score_for_raffle scores
      players) = 0
  · rw [run_eq_noop_no_scores event_uuid medal_uuid actor totals scores players h1 h2] at htx
    exact absurd htx (List.not_mem_nil tx)
  rw [run_eq_ok event_uuid medal_uuid actor totals scores players h1 h2] at htx
  rcases List.mem_map.1 htx with ⟨r, hr, rfl⟩
  show r.share ≤ cap_of (remaining_of totals)
  rcases allocate_spec (cap_of (remaining_of totals)) (remaining_of totals)
      (sumScores (aggregatedRows event_uuid totals.min_score_for_raffle scores players))
      (aggregatedRows event_uuid totals.min_score_for_raffle scores players) rfl h2 with
    ⟨_, _, _, hcap, _, _⟩
  exact hcap (aggregatedRows_nodup event_uuid totals.min_score_for_raffle scores players) r
    (List.mem_of_mem_filter hr)

/-- Example state from the spec's scenario 6: pot 1000, nothing consumed. -/
def exTotals8 : EventTotals :=
  { total_amount := 1000, raffle_amount_used := 0, distributed_amount := 0,
    min_score_for_raffle := 0 }

def exPlayers8 : List Player :=
  [{ id := 1, is_alt := false, main_player_id := none, deleted_at := none },
   { id := 2, is_alt := false, main_player_id := none, deleted_at := none },
   { id := 3, is_alt := false, main_player_id := none, deleted_at := none }]

def exScore8a : Score :=
  { event_id := 0, player_id := 1, score := 50, raw_score := 50, verified := true, created_by := 7 }

def exScore8b : Score :=
  { event_id := 0, player_id := 2, score := 30, raw_score := 30, verified := true, created_by := 7 }

def exScore8c : Score :=
  { event_id := 0, player_id := 3, score := 20, raw_score := 20, verified := true, created_by := 7 }

def exScores8 : List Score := [exScore8a, exScore8b, exScore8c]

def exTx8 : LedgerTx :=
  { player_id := 1
    medal_id := 5
    amount := 100
    transaction_type := "weighted_distribution"
    event_id := 0
    description := "Avalon 50% score-based distribution (alt→main, cap reallocation)"
    created_by := 9 }

set_option maxRecDepth 2000 in
set_option maxHeartbeats 1000000 in
/-- Witness for C2 at the spec's example state (scores 50, 30, 20, pot 1000):
the first created transaction's amount is bounded by the cap. -/
theorem cap_respected_witness :
    exTx8.amount ≤ cap_of (remaining_of exTotals8) :=
  cap_respected 0 5 9 exTotals8 exScores8 exPlayers8 exTx8 (by decide)

/-- C3: pot invariant preserved.  For every EventTotals state satisfying
`raffle_amount_used + distributed_amount <= total_amount` before a run (and
with a nonnegative qualification threshold, the data model's validity
condition), the same inequality holds on the EventTotals row after the run:
one run never pays out more than the remaining pot. -/
theorem pot_invariant_preserved (event_uuid medal_uuid actor : Nat) (totals : EventTotals)
    (scores : List Score) (players : List Player)
    (hthr : 0 ≤ totals.min_score_for_raffle)
    (hinv : totals.raffle_amount_used + totals.distributed_amount ≤ totals.total_amount) :
    (run_weighted_distribution_v2 event_uuid medal_uuid actor totals scores
        players).totals.raffle_amount_used +
      (run_weighted_distribution_v2 event_uuid medal_uuid actor totals scores
        players).totals.distributed_amount ≤
      (run_weighted_distribution_v2 event_uuid medal_uuid actor totals scores
        players).totals.total_amount := by
  by_cases h1 : remaining_of totals ≤ 0
  · rw [run_eq_noop_no_remaining event_uuid medal_uuid actor totals scores players h1]
    exact hinv
  by_cases h2 : sumScores (aggregatedRows event_uuid totals.min_score_for_raffle scores
      players) = 0
  · rw [run_eq_noop_no_scores event_uuid medal_uuid actor totals scores players h1 h2]
    exact hinv
  rw [run_eq_ok event_uuid medal_uuid actor totals scores players h1 h2]
  show totals.raffle_amount_used + (totals.distributed_amount +
    (((allocate (cap_of (remaining_of totals)) (remaining_of totals)
      (sumScores (aggregatedRows event_uuid totals.min_score_for_raffle scores players))
      (aggregatedRows event_uuid totals.min_score_for_raffle scores players)).1.filter
        fun r => decide (0 < r.share)).map fun r => r.share).sum) ≤ totals.total_amount
  rcases allocate_spec (cap_of (remaining_of totals)) (remaining_of totals)
      (sumScores (aggregatedRows event_uuid totals.min_score_for_raffle scores players))
      (aggregatedRows event_uuid totals.min_score_for_raffle scores players) rfl h2 with
    ⟨_, hl0, hsum, _, _, hnn⟩
  have h1' : 0 < remaining_of totals := by omega
  have hnns : ∀ r ∈ (allocate (cap_of (remaining_of totals)) (remaining_of totals)
      (sumScores (aggregatedRows event_uuid totals.min_score_for_raffle scores players))
      (aggregatedRows event_uuid totals.min_score_for_raffle scores players)).1,
      0 ≤ r.share :=
    hnn (aggregatedRows_score_sum_nonneg event_uuid totals.min_score_for_raffle scores
      players hthr) h1' (cap_of_nonneg (remaining_of totals) h1')
  rw [paid_sum_eq_total _ hnns]
  have hs := hsum (aggregatedRows_nodup event_uuid totals.min_score_for_raffle scores players)
  unfold sumShares at hs
  have hrem : remaining_of totals =
      totals.total_amount - totals.raffle_amount_used - totals.distributed_amount := rfl
  omega

/-- Witness for C3 at the spec's example state: after the 50/30/20 run on the
1000 pot the invariant still holds. -/
theorem pot_invariant_preserved_witness :
    (run_weighted_distribution_v2 0 5 9 exTotals8 exScores8
        exPlayers8).totals.raffle_amount_used +
      (run_weighted_distribution_v2 0 5 9 exTotals8 exScores8
        exPlayers8).totals.distributed_amount ≤
      (run_weighted_distribution_v2 0 5 9 exTotals8 exScores8
        exPlayers8).totals.total_amount :=
  pot_invariant_preserved 0 5 9 exTotals8 exScores8 exPlayers8 (by decide) (by decide)

/-- C4: termination.  The largest-remainder loop, started on any state with a
nonnegative leftover and fuelled by the leftover itself (each granted unit
decrements the leftover by exactly one), reaches its exit condition: either the
leftover is zero or no under-cap row remains — and once reached, running the
loop any longer changes nothing.  The water-filling loop is bounded by the
constant `max_realloc_rounds = 10` rounds by construction (its fuel), and when
the total residual is zero it exits immediately without touching the state. -/
theorem distribution_terminates (cap_amount leftover : Int) (rows : List TempDistRow)
    (h : 0 ≤ leftover) :
    ((lrLoop cap_amount leftover.toNat (rows, leftover)).2 = 0 ∨
      ∀ r ∈ (lrLoop cap_amount leftover.toNat (rows, leftover)).1, ¬ r.share < cap_amount) ∧
    (∀ fuel, lrLoop cap_amount fuel (lrLoop cap_amount leftover.toNat (rows, leftover)) =
      lrLoop cap_amount leftover.toNat (rows, leftover)) ∧
    (∀ fuel l, totalResidual cap_amount rows = 0 →
      waterLoop cap_amount fuel (rows, l) = (rows, l)) ∧
    max_realloc_rounds = 10 := by
  rcases lrLoop_spec cap_amount leftover.toNat rows leftover with ⟨_, _, _, _, _, hexit⟩
  have hx := hexit h (le_refl _)
  constructor
  · rcases hx with h0 | hpick
    · exact Or.inl h0
    · exact Or.inr ((lrPick_none_iff cap_amount _).1 hpick)
  refine ⟨?_, fun fuel l htr => waterLoop_fix_tr0 cap_amount fuel rows l htr, rfl⟩
  intro fuel
  have := lrLoop_fix cap_amount (lrLoop cap_amount leftover.toNat (rows, leftover)).1
    (lrLoop cap_amount leftover.toNat (rows, leftover)).2 ?_ fuel
  · exact this
  · rcases hx with h0 | hpick
    · exact Or.inl h0
    · exact Or.inr hpick

/-- Witness for C4 at a concrete state: an empty row set with leftover 5. -/
theorem distribution_terminates_witness :
    (((lrLoop 0 (5 : Int).toNat ([], 5)).2 = 0 ∨
      ∀ r ∈ (lrLoop 0 (5 : Int).toNat (([] : List TempDistRow), 5)).1, ¬ r.share < 0) ∧
    (∀ fuel, lrLoop 0 fuel (lrLoop 0 (5 : Int).toNat (([] : List TempDistRow), 5)) =
      lrLoop 0 (5 : Int).toNat (([] : List TempDistRow), 5)) ∧
    (∀ fuel l, totalResidual 0 [] = 0 →
      waterLoop 0 fuel (([] : List TempDistRow), l) = ([], l)) ∧
    max_realloc_rounds = 10) :=
  distribution_terminates 0 5 [] (by decide)

/-! Uniqueness of players by id, used for the alt-resolution claim. -/

lemma player_id_unique {players : List Player}
    (hp : players.Pairwise fun a b => a.id ≠ b.id) :
    ∀ a ∈ players, ∀ b ∈ players, a.id = b.id → a = b := by
  induction players with
  | nil => intro a ha; exact absurd ha (List.not_mem_nil a)
  | cons x t ih =>
    have hx := List.pairwise_cons.1 hp
    intro a ha b hb hab
    rcases List.mem_cons.1 ha with rfl | ha' <;> rcases List.mem_cons.1 hb with rfl | hb'
    · rfl
    · exact absurd hab (hx.1 b hb')
    · exact absurd hab.symm (hx.1 a ha')
    · exact ih hx.2 a ha' b hb' hab

lemma find?_id_of_nodup (players : List Player)
    (hids : (players.map fun p => p.id).Nodup) (p : Player) (hp : p ∈ players) :
    (players.find? fun q => q.id == p.id) = some p := by
  induction players with
  | nil => exact absurd hp (List.not_mem_nil p)
  | cons a t ih =>
    rw [List.map_cons] at hids
    have hnd := List.nodup_cons.1 hids
    rcases List.mem_cons.1 hp with rfl | hpt
    · rw [List.find?_cons_of_pos _ (by simp)]
    · by_cases hae : a.id = p.id
      · exfalso
        have hmem : p.id ∈ t.map fun q => q.id := List.mem_map.2 ⟨p, hpt, rfl⟩
        exact hnd.1 (hae ▸ hmem)
      · rw [List.find?_cons_of_neg _ (by simpa using hae)]
        exact ih hnd.2 hpt

def exPlayersAlt : List Player :=
  [{ id := 1, is_alt := false, main_player_id := none, deleted_at := none },
   { id := 2, is_alt := true, main_player_id := some 1, deleted_at := none }]

def exScoresAlt : List Score :=
  [{ event_id := 0, player_id := 1, score := 100, raw_score := 100, verified := true, created_by := 7 },
   { event_id := 0, player_id := 2, score := 50, raw_score := 50, verified := true, created_by := 7 }]

def exPlayersSingle : List Player :=
  [{ id := 1, is_alt := false, main_player_id := none, deleted_at := none }]

def exScoresSingle : List Score :=
  [{ event_id := 0, player_id := 1, score := 150, raw_score := 150, verified := true, created_by := 7 }]

/-- C5: alt resolution and aggregation.  Under the data model's invariants
(unique player ids; a non-alt player carries no `main_player_id`; an alt always
carries one; `main_player_id` always references a non-alt player), the payout
identity of every player resolves to `main_player_id` exactly when the player
is flagged `is_alt` and has one, and to the player's own id otherwise; every
ledger transaction created by a run goes to a resolved identity, never to an
alt; and a main with score 100 plus its alt with score 50 produces exactly the
same run outcome as a single player with score 150. -/
theorem alt_resolution_aggregation (event_uuid medal_uuid actor : Nat) (totals : EventTotals)
    (scores : List Score) (players : List Player)
    (hids : (players.map fun p => p.id).Nodup)
    (hmain_none : ∀ p ∈ players, p.is_alt = false → p.main_player_id = none)
    (halt_some : ∀ p ∈ players, p.is_alt = true → p.main_player_id ≠ none)
    (hmain_target : ∀ p ∈ players, ∀ q ∈ players, p.main_player_id = some q.id →
      q.is_alt = false) :
    (∀ p ∈ players, resolveMainId players p.id =
      some (if p.is_alt = true then p.main_player_id.getD p.id else p.id)) ∧
    (∀ tx ∈ (run_weighted_distribution_v2 event_uuid medal_uuid actor totals scores
        players).new_txs, ∀ q ∈ players, q.id = tx.player_id → q.is_alt = false) ∧
    run_weighted_distribution_v2 0 5 9 exTotals8 exScoresAlt exPlayersAlt =
      run_weighted_distribution_v2 0 5 9 exTotals8 exScoresSingle exPlayersSingle := by
  refine ⟨?_, ?_, by decide⟩
  · intro p hp
    unfold resolveMainId
    rw [find?_id_of_nodup players hids p hp]
    cases halt : p.is_alt with
    | true => rfl
    | false =>
      rw [if_neg (by simp)]
      show some (p.main_player_id.getD p.id) = some p.id
      rw [hmain_none p hp halt]
      rfl
  · intro tx htx q hq hqid
    by_cases h1 : remaining_of totals ≤ 0
    · rw [run_eq_noop_no_remaining event_uuid medal_uuid actor totals scores players h1] at htx
      exact absurd htx (List.not_mem_nil tx)
    by_cases h2 : sumScores (aggregatedRows event_uuid totals.min_score_for_raffle scores
        players) = 0
    · rw [run_eq_noop_no_scores event_uuid medal_uuid actor totals scores players h1 h2] at htx
      exact absurd htx (List.not_mem_nil tx)
    rw [run_eq_ok event_uuid medal_uuid actor totals scores players h1 h2] at htx
    rcases List.mem_map.1 htx with ⟨r, hr, rfl⟩
    have hrF := List.mem_of_mem_filter hr
    rcases allocate_spec (cap_of (remaining_of totals)) (remaining_of totals)
        (sumScores (aggregatedRows event_uuid totals.min_score_for_raffle scores players))
        (aggregatedRows event_uuid totals.min_score_for_raffle scores players) rfl h2 with
      ⟨hmain, _, _, _, _, _⟩
    have hmem : r.main_id ∈ (aggregatedRows event_uuid totals.min_score_for_raffle scores
        players).map fun x => x.main_id := by
      rw [← hmain]
      exact List.mem_map.2 ⟨r, hrF, rfl⟩
    rcases List.mem_map.1 hmem with ⟨r0, hr0, hr0id⟩
    rcases aggregatedRows_main_resolved event_uuid totals.min_score_for_raffle scores players
      r0 hr0 with ⟨pid, hres⟩
    unfold resolveMainId at hres
    rcases Option.map_eq_some'.1 hres with ⟨p0, hfind, hval⟩
    have hp0 : p0 ∈ players := List.mem_of_find?_eq_some hfind
    show q.is_alt = false
    cases hm : p0.main_player_id with
    | none =>
      rw [hm] at hval
      have hqp0 : q = p0 := by
        apply player_id_unique (List.pairwise_map.1 hids) q hq p0 hp0
        rw [hqid, ← hr0id, ← hval]
        rfl
      cases hq_alt : p0.is_alt with
      | false => rw [hqp0]; exact hq_alt
      | true => exact absurd hm (halt_some p0 hp0 hq_alt)
    | some mtgt =>
      rw [hm] at hval
      apply hmain_target p0 hp0 q hq
      rw [hm, hqid, ← hr0id, ← hval]
      rfl

/-- Witness for C5 at the concrete alt state (main id 1 with score 100, alt
id 2 with score 50). -/
theorem alt_resolution_aggregation_witness :
    (∀ p ∈ exPlayersAlt, resolveMainId exPlayersAlt p.id =
      some (if p.is_alt = true then p.main_player_id.getD p.id else p.id)) ∧
    (∀ tx ∈ (run_weighted_distribution_v2 0 5 9 exTotals8 exScoresAlt
        exPlayersAlt).new_txs, ∀ q ∈ exPlayersAlt, q.id = tx.player_id →
        q.is_alt = false) ∧
    run_weighted_distribution_v2 0 5 9 exTotals8 exScoresAlt exPlayersAlt =
      run_weighted_distribution_v2 0 5 9 exTotals8 exScoresSingle exPlayersSingle :=
  alt_resolution_aggregation 0 5 9 exTotals8 exScoresAlt exPlayersAlt (by decide) (by decide)
    (by decide) (by decide)

/-! Soft-deleted players and the aggregation query. -/

def delTotals : EventTotals :=
  { total_amount := 100, raffle_amount_used := 0, distributed_amount := 0,
    min_score_for_raffle := 0 }

def delPlayers : List Player :=
  [{ id := 1, is_alt := false, main_player_id := none, deleted_at := some 0 }]

def delScores : List Score :=
  [{ event_id := 0, player_id := 1, score := 10, raw_score := 10, verified := true, created_by := 7 }]

/-- C6 counterexample: a state whose only player is soft-deleted
(`deleted_at = some 0`) and has a verified qualifying score of 10 on a pot of
100.  The run still aggregates that score and creates a ledger transaction of
10 for the soft-deleted player, refuting the claim that such players
contribute nothing and never receive a transaction. -/
theorem soft_delete_counterexample :
    delPlayers = [{ id := 1, is_alt := false, main_player_id := none, deleted_at := some 0 }] ∧
    ((run_weighted_distribution_v2 0 5 9 delTotals delScores delPlayers).new_txs.map
      fun t => (t.player_id, t.amount)) = [(1, 10)] :=
  ⟨rfl, by decide⟩

lemma resolveMainId_deleted (g : Player → Option Nat) (players : List Player) (pid : Nat) :
    resolveMainId (players.map fun p => { p with deleted_at := g p }) pid =
      resolveMainId players pid := by
  induction players with
  | nil => rfl
  | cons a t ih =>
    unfold resolveMainId
    rw [List.map_cons]
    by_cases h : a.id = pid
    · rw [List.find?_cons_of_pos _ (by simpa using h),
        List.find?_cons_of_pos _ (by simpa using h)]
      rfl
    · rw [List.find?_cons_of_neg _ (by simpa using h),
        List.find?_cons_of_neg _ (by simpa using h)]
      exact ih

lemma resolvedPairs_deleted (event_uuid : Nat) (thr : Int) (scores : List Score)
    (players : List Player) (g : Player → Option Nat) :
    resolvedPairs event_uuid thr scores (players.map fun p => { p with deleted_at := g p }) =
      resolvedPairs event_uuid thr scores players := by
  unfold resolvedPairs
  simp only [resolveMainId_deleted]

lemma aggregatedRows_deleted (event_uuid : Nat) (thr : Int) (scores : List Score)
    (players : List Player) (g : Player → Option Nat) :
    aggregatedRows event_uuid thr scores (players.map fun p => { p with deleted_at := g p }) =
      aggregatedRows event_uuid thr scores players := by
  unfold aggregatedRows
  simp only [resolvedPairs_deleted]

/-- C6 amended: `run_weighted_distribution_v2` never reads `deleted_at`; its
aggregation joins `players` only to resolve main ids.  The run outcome is
invariant under arbitrary rewrites of every player's `deleted_at`, so a
soft-deleted player's verified qualifying scores still contribute and such a
player can still receive a ledger transaction (soft-delete filtering happens
only in the UI read paths, not in the settlement engine). -/
theorem soft_delete_independent (event_uuid medal_uuid actor : Nat) (totals : EventTotals)
    (scores : List Score) (players : List Player) (g : Player → Option Nat) :
    run_weighted_distribution_v2 event_uuid medal_uuid actor totals scores
      (players.map fun p => { p with deleted_at := g p }) =
    run_weighted_distribution_v2 event_uuid medal_uuid actor totals scores players := by
  unfold run_weighted_distribution_v2
  rw [aggregatedRows_deleted]

/-! Repeat-invocation behaviour. -/

def exTotals8b : EventTotals :=
  { total_amount := 1000, raffle_amount_used := 0, distributed_amount := 300,
    min_score_for_raffle := 0 }

def exTx8b : LedgerTx :=
  { player_id := 2
    medal_id := 5
    amount := 100
    transaction_type := "weighted_distribution"
    event_id := 0
    description := "Avalon 50% score-based distribution (alt→main, cap reallocation)"
    created_by := 9 }

def exTx8c : LedgerTx :=
  { player_id := 3
    medal_id := 5
    amount := 100
    transaction_type := "weighted_distribution"
    event_id := 0
    description := "Avalon 50% score-based distribution (alt→main, cap reallocation)"
    created_by := 9 }

set_option maxRecDepth 2000 in
lemma exRun8_eq : run_weighted_distribution_v2 0 5 9 exTotals8 exScores8 exPlayers8 =
    { result := RunResult.ok 3 1000 300 700 3
      new_txs := [exTx8, exTx8b, exTx8c]
      totals := exTotals8b } := by
  decide

set_option maxRecDepth 2000 in
/-- C7 counterexample: on the spec's own example state (pot 1000, scores
50/30/20), the first run distributes 300 and leaves 700; an immediate second
invocation with no new scores and no new pot is NOT a `no_remaining` no-op: it
returns `ok` and creates three more ledger transactions (210 in total at the
new cap of 70). -/
theorem repeat_noop_counterexample :
    (run_weighted_distribution_v2 0 5 9
      (run_weighted_distribution_v2 0 5 9 exTotals8 exScores8 exPlayers8).totals
      exScores8 exPlayers8).result = RunResult.ok 3 700 210 490 3 ∧
    (run_weighted_distribution_v2 0 5 9
      (run_weighted_distribution_v2 0 5 9 exTotals8 exScores8 exPlayers8).totals
      exScores8 exPlayers8).new_txs ≠ [] := by
  rw [exRun8_eq]
  exact ⟨by decide, by decide⟩

lemma run_result_noop_iff (event_uuid medal_uuid actor : Nat) (totals : EventTotals)
    (scores : List Score) (players : List Player) :
    (run_weighted_distribution_v2 event_uuid medal_uuid actor totals scores players).result =
      RunResult.noop_no_remaining ↔ remaining_of totals ≤ 0 := by
  by_cases h1 : remaining_of totals ≤ 0
  · rw [run_eq_noop_no_remaining event_uuid medal_uuid actor totals scores players h1]
    simp [h1]
  · by_cases h2 : sumScores (aggregatedRows event_uuid totals.min_score_for_raffle scores
        players) = 0
    · rw [run_eq_noop_no_scores event_uuid medal_uuid actor totals scores players h1 h2]
      simp [h1]
    · rw [run_eq_ok event_uuid medal_uuid actor totals scores players h1 h2]
      simp [h1]

/-- C7 amended: a run whose computed remaining is non-positive returns
`{noop, no_remaining}`, creates no ledger transactions and leaves the
EventTotals row unchanged; and after a completed `ok` run, an immediate second
invocation (no new scores, no new pot) returns `{noop, no_remaining}` exactly
when the first run distributed the entire remaining pot
(`remaining_after ≤ 0`) — not unconditionally, since a capped run leaves a
positive remainder that the second invocation distributes further. -/
theorem repeat_noop_amended (event_uuid medal_uuid actor : Nat) (totals : EventTotals)
    (scores : List Score) (players : List Player) :
    (remaining_of totals ≤ 0 →
      run_weighted_distribution_v2 event_uuid medal_uuid actor totals scores players =
        { result := RunResult.noop_no_remaining, new_txs := [], totals := totals }) ∧
    (∀ n rb dn ra c,
      (run_weighted_distribution_v2 event_uuid medal_uuid actor totals scores
        players).result = RunResult.ok n rb dn ra c →
      ((run_weighted_distribution_v2 event_uuid medal_uuid actor
          (run_weighted_distribution_v2 event_uuid medal_uuid actor totals scores
            players).totals scores players).result = RunResult.noop_no_remaining ↔
        ra ≤ 0)) := by
  constructor
  · exact run_eq_noop_no_remaining event_uuid medal_uuid actor totals scores players
  · intro n rb dn ra c hok
    by_cases h1 : remaining_of totals ≤ 0
    · rw [run_eq_noop_no_remaining event_uuid medal_uuid actor totals scores players h1]
        at hok
      exact absurd hok (by simp)
    by_cases h2 : sumScores (aggregatedRows event_uuid totals.min_score_for_raffle scores
        players) = 0
    · rw [run_eq_noop_no_scores event_uuid medal_uuid actor totals scores players h1 h2]
        at hok
      exact absurd hok (by simp)
    rw [run_eq_ok event_uuid medal_uuid actor totals scores players h1 h2] at hok
    have hinj := hok
    rw [RunResult.ok.injEq] at hinj
    rcases hinj with ⟨_, hrb, hdn, hra, _⟩
    have hrm2 : remaining_of (run_weighted_distribution_v2 event_uuid medal_uuid actor
        totals scores players).totals = ra := by
      rw [run_eq_ok event_uuid medal_uuid actor totals scores players h1 h2]
      show totals.total_amount - totals.raffle_amount_used -
        (totals.distributed_amount + _) = ra
      have hrem : remaining_of totals =
          totals.total_amount - totals.raffle_amount_used - totals.distributed_amount := rfl
      omega
    rw [run_result_noop_iff, hrm2]

def zeroTotals : EventTotals :=
  { total_amount := 0, raffle_amount_used := 0, distributed_amount := 0,
    min_score_for_raffle := 0 }

/-- Witness for C7: a fully-consumed pot yields the no-op unchanged-state
result, and on the 50/30/20 example the second call is not a no-op since the
first run left 700 (the iff instantiates to `700 ≤ 0` on both sides false). -/
theorem repeat_noop_amended_witness :
    (run_weighted_distribution_v2 0 5 9 zeroTotals [] [] =
      { result := RunResult.noop_no_remaining, new_txs := [], totals := zeroTotals }) ∧
    ((run_weighted_distribution_v2 0 5 9
        (run_weighted_distribution_v2 0 5 9 exTotals8 exScores8 exPlayers8).totals
        exScores8 exPlayers8).result = RunResult.noop_no_remaining ↔ (700 : Int) ≤ 0) :=
  ⟨(repeat_noop_amended 0 5 9 zeroTotals [] []).1 (by decide),
   (repeat_noop_amended 0 5 9 exTotals8 exScores8 exPlayers8).2 3 1000 300 700 3
     (by rw [exRun8_eq])⟩

/-- C8: the spec's example scenario.  On `total_amount = 1000` with nothing
consumed, threshold 0, and three verified players scoring 50, 30, 20, one run
computes remaining 1000 and cap 100, pays each player exactly 100 (all three
capped, water-filling finds zero headroom), reports `distributed_now = 300`,
and sets `distributed_amount` to 300, leaving 700 unspent. -/
theorem example_scenario_run :
    remaining_of exTotals8 = 1000 ∧
    cap_of (remaining_of exTotals8) = 100 ∧
    run_weighted_distribution_v2 0 5 9 exTotals8 exScores8 exPlayers8 =
      { result := RunResult.ok 3 1000 300 700 3
        new_txs := [exTx8, exTx8b, exTx8c]
        totals := exTotals8b } ∧
    exTotals8b.distributed_amount = 300 ∧
    exTx8.amount = 100 ∧ exTx8b.amount = 100 ∧ exTx8c.amount = 100 :=
  ⟨rfl, by decide, exRun8_eq, rfl, rfl, rfl, rfl⟩

/-! Counting and last-write-wins facts about the score upsert. -/

lemma upsert_fold_counts (payload : List PayloadItem) :
    ∀ (sc : List Score) (c k : Nat),
      (payload.foldl upsertStep ⟨sc, c, k⟩).committed +
          (payload.foldl upsertStep ⟨sc, c, k⟩).skipped = c + k + payload.length ∧
      (payload.foldl upsertStep ⟨sc, c, k⟩).committed =
        c + (payload.filter fun i => (parseItem i).isSome).length := by
  induction payload with
  | nil =>
    intro sc c k
    constructor
    · show c + k = c + k + 0
      omega
    · show c = c + ([] : List PayloadItem).length
      simp
  | cons it t ih =>
    intro sc c k
    rw [List.foldl_cons]
    cases hp : parseItem it with
    | some s =>
      have hstep : upsertStep ⟨sc, c, k⟩ it = ⟨upsertScore sc s, c + 1, k⟩ := by
        unfold upsertStep
        rw [hp]
      have hfilter : ((it :: t).filter fun i => (parseItem i).isSome) =
          it :: (t.filter fun i => (parseItem i).isSome) := by
        simp [List.filter_cons, hp]
      rw [hstep, hfilter]
      rcases ih (upsertScore sc s) (c + 1) k with ⟨ih1, ih2⟩
      constructor
      · rw [ih1]
        simp only [List.length_cons]
        omega
      · rw [ih2]
        simp only [List.length_cons]
        omega
    | none =>
      have hstep : upsertStep ⟨sc, c, k⟩ it = ⟨sc, c, k + 1⟩ := by
        unfold upsertStep
        rw [hp]
      have hfilter : ((it :: t).filter fun i => (parseItem i).isSome) =
          t.filter fun i => (parseItem i).isSome := by
        simp [List.filter_cons, hp]
      rw [hstep, hfilter]
      rcases ih sc c (k + 1) with ⟨ih1, ih2⟩
      constructor
      · rw [ih1]
        simp only [List.length_cons]
        omega
      · rw [ih2]

lemma lookup_upsertScore (store : List Score) (s old : Score)
    (hold : lookupScore store s.event_id s.player_id = some old) :
    lookupScore (upsertScore store s) s.event_id s.player_id =
      some { old with score := s.score, raw_score := s.raw_score, verified := s.verified } := by
  unfold lookupScore at hold
  have hmem := List.mem_of_find?_eq_some hold
  have hkey := List.find?_some hold
  unfold upsertScore
  rw [if_pos (List.any_eq_true.2 ⟨old, hmem, hkey⟩)]
  unfold lookupScore
  rw [List.find?_map]
  have hcomp : (sameKey s.event_id s.player_id ∘ fun t =>
      if sameKey s.event_id s.player_id t then
        { t with score := s.score, raw_score := s.raw_score, verified := s.verified }
      else t) = sameKey s.event_id s.player_id := by
    funext t
    by_cases ht : sameKey s.event_id s.player_id t
    · simp only [Function.comp, if_pos ht]
      rfl
    · simp only [Function.comp, if_neg ht]
  rw [hcomp, hold]
  show some (if sameKey s.event_id s.player_id old = true then { old with score := s.score, raw_score := s.raw_score, verified := s.verified } else old) = some { old with score := s.score, raw_score := s.raw_score, verified := s.verified }
  rw [if_pos hkey]

/-- C9: score commit gate.  Each payload row of `upsert_scores_big_v2` is
processed independently: committed and skipped counts always sum to the number
of rows, the committed count is exactly the number of well-formed rows (a
malformed row is skipped without aborting the batch), and a well-formed row
whose `(event_id, player_id)` key already exists overwrites the stored
`score`, `raw_score` and `verified` (last-write-wins, not accumulation). -/
theorem upsert_batch_semantics (payload : List PayloadItem) (store : List Score)
    (it : PayloadItem) (s old : Score)
    (hs : parseItem it = some s)
    (hold : lookupScore store s.event_id s.player_id = some old) :
    (upsert_scores_big_v2 payload store).committed +
        (upsert_scores_big_v2 payload store).skipped = payload.length ∧
    (upsert_scores_big_v2 payload store).committed =
      (payload.filter fun i => (parseItem i).isSome).length ∧
    lookupScore (upsert_scores_big_v2 [it] store).scores s.event_id s.player_id =
      some { old with score := s.score, raw_score := s.raw_score, verified := s.verified } := by
  rcases upsert_fold_counts payload store 0 0 with ⟨h1, h2⟩
  refine ⟨?_, ?_, ?_⟩
  · show (payload.foldl upsertStep ⟨store, 0, 0⟩).committed +
      (payload.foldl upsertStep ⟨store, 0, 0⟩).skipped = payload.length
    omega
  · show (payload.foldl upsertStep ⟨store, 0, 0⟩).committed =
      (payload.filter fun i => (parseItem i).isSome).length
    omega
  · have hstep : upsert_scores_big_v2 [it] store =
        ⟨upsertScore store s, 1, 0⟩ := by
      show upsertStep ⟨store, 0, 0⟩ it = _
      unfold upsertStep
      rw [hs]
    rw [hstep]
    exact lookup_upsertScore store s old hold

def exItemGood : PayloadItem :=
  { event_id := some 0, player_id := some 1, score := some 40, raw_score := some 41
    verified := some false, created_by := some 7 }

def exItemBad : PayloadItem :=
  { event_id := none, player_id := some 2, score := some 5, raw_score := some 5
    verified := none, created_by := some 7 }

def exParsedGood : Score :=
  { event_id := 0, player_id := 1, score := 40, raw_score := 41, verified := false
    created_by := 7 }

def exOldScore : Score :=
  { event_id := 0, player_id := 1, score := 10, raw_score := 10, verified := true
    created_by := 3 }

/-- Witness for C9: a two-row batch with one malformed row commits one and
skips one, and the well-formed row overwrites the existing stored row. -/
theorem upsert_batch_semantics_witness :
    (upsert_scores_big_v2 [exItemGood, exItemBad] [exOldScore]).committed +
        (upsert_scores_big_v2 [exItemGood, exItemBad] [exOldScore]).skipped =
      [exItemGood, exItemBad].length ∧
    (upsert_scores_big_v2 [exItemGood, exItemBad] [exOldScore]).committed =
      ([exItemGood, exItemBad].filter fun i => (parseItem i).isSome).length ∧
    lookupScore (upsert_scores_big_v2 [exItemGood] [exOldScore]).scores
        exParsedGood.event_id exParsedGood.player_id =
      some { exOldScore with score := exParsedGood.score, raw_score := exParsedGood.raw_score, verified := exParsedGood.verified } :=
  upsert_batch_semantics [exItemGood, exItemBad] [exOldScore] exItemGood exParsedGood
    exOldScore (by decide) (by decide)

/-! Behaviour of a positive pot below ten units. -/

def deadTotals : EventTotals :=
  { total_amount := 5, raffle_amount_used := 0, distributed_amount := 0,
    min_score_for_raffle := 0 }

def deadPlayers : List Player :=
  [{ id := 1, is_alt := false, main_player_id := none, deleted_at := none }]

def deadZeroScores : List Score :=
  [{ event_id := 0, player_id := 1, score := 0, raw_score := 0, verified := true, created_by := 7 }]

def deadPosScores : List Score :=
  [{ event_id := 0, player_id := 1, score := 3, raw_score := 3, verified := true, created_by := 7 }]

/-- C10 counterexample: with remaining 5 and one qualifying score row (score 0
at threshold 0), the aggregated score sum is zero, so the run returns
`{noop, no_scores}` rather than the claimed `{status: ok}` with zero
players. -/
theorem dead_pot_counterexample :
    0 < remaining_of deadTotals ∧ remaining_of deadTotals < 10 ∧
    (deadZeroScores.filter (qualifies 0 deadTotals.min_score_for_raffle)).length = 1 ∧
    (run_weighted_distribution_v2 0 5 9 deadTotals deadZeroScores deadPlayers).result =
      RunResult.noop_no_scores 5 :=
  ⟨by decide, by decide, by decide, by decide⟩

lemma cap_of_eq_zero (R : Int) (h1 : 0 < R) (h2 : R < 10) : cap_of R = 0 := by
  unfold cap_of
  rw [Int.floor_eq_zero_iff]
  constructor
  · apply mul_nonneg
    · exact_mod_cast le_of_lt h1
    · norm_num
  · have h9 : (R : ℚ) ≤ 9 := by exact_mod_cast (by omega : R ≤ 9)
    calc (R : ℚ) * (10 / 100) ≤ 9 * (10 / 100) := by
          apply mul_le_mul_of_nonneg_right h9
          norm_num
      _ < 1 := by norm_num

/-- C10 amended: with `0 < remaining < 10` and a nonzero aggregated score sum,
the cap `floor(remaining * 0.10)` is zero, so every share is clamped to at
most zero: the run returns `ok` with zero paid players and
`distributed_now = 0`, creates no ledger transactions, leaves the EventTotals
row unchanged, and therefore any number of further runs also changes
nothing — a positive pot below ten units can never be distributed.  (When the
aggregated sum is zero the run instead reports `{noop, no_scores}`.) -/
theorem dead_pot_amended (event_uuid medal_uuid actor : Nat) (totals : EventTotals)
    (scores : List Score) (players : List Player)
    (h1 : 0 < remaining_of totals) (h2 : remaining_of totals < 10)
    (h3 : sumScores (aggregatedRows event_uuid totals.min_score_for_raffle scores players)
      ≠ 0) :
    (∃ c, (run_weighted_distribution_v2 event_uuid medal_uuid actor totals scores
        players).result =
      RunResult.ok 0 (remaining_of totals) 0 (remaining_of totals) c) ∧
    (run_weighted_distribution_v2 event_uuid medal_uuid actor totals scores
      players).new_txs = [] ∧
    (run_weighted_distribution_v2 event_uuid medal_uuid actor totals scores
      players).totals = totals ∧
    (∀ n : Nat, Nat.iterate
      (fun t => (run_weighted_distribution_v2 event_uuid medal_uuid actor t scores
        players).totals) n totals = totals) := by
  have h1' : ¬ remaining_of totals ≤ 0 := by omega
  have hcap0 : cap_of (remaining_of totals) = 0 := cap_of_eq_zero _ h1 h2
  rcases allocate_spec (cap_of (remaining_of totals)) (remaining_of totals)
      (sumScores (aggregatedRows event_uuid totals.min_score_for_raffle scores players))
      (aggregatedRows event_uuid totals.min_score_for_raffle scores players) rfl h3 with
    ⟨_, _, _, hcap, _, _⟩
  have hpaid : ((allocate (cap_of (remaining_of totals)) (remaining_of totals)
      (sumScores (aggregatedRows event_uuid totals.min_score_for_raffle scores players))
      (aggregatedRows event_uuid totals.min_score_for_raffle scores players)).1.filter
        fun r => decide (0 < r.share)) = [] := by
    rw [List.filter_eq_nil_iff]
    intro r hr
    have := hcap (aggregatedRows_nodup event_uuid totals.min_score_for_raffle scores
      players) r hr
    rw [hcap0] at this
    simp only [decide_eq_true_eq]
    omega
  have htot : (run_weighted_distribution_v2 event_uuid medal_uuid actor totals scores
      players).totals = totals := by
    rw [run_eq_ok event_uuid medal_uuid actor totals scores players h1' h3]
    show { totals with distributed_amount := totals.distributed_amount + _ } = totals
    rw [hpaid]
    show { totals with distributed_amount := totals.distributed_amount + 0 } = totals
    rw [add_zero]
  refine ⟨?_, ?_, htot, ?_⟩
  · refine ⟨(((allocate (cap_of (remaining_of totals)) (remaining_of totals)
      (sumScores (aggregatedRows event_uuid totals.min_score_for_raffle scores players))
      (aggregatedRows event_uuid totals.min_score_for_raffle scores players)).1.filter
        fun r => r.is_capped).length), ?_⟩
    rw [run_eq_ok event_uuid medal_uuid actor totals scores players h1' h3]
    show RunResult.ok _ _ _ _ _ = RunResult.ok _ _ _ _ _
    rw [RunResult.ok.injEq]
    rw [hpaid]
    refine ⟨rfl, rfl, rfl, ?_, rfl⟩
    show remaining_of totals - (([] : List TempDistRow).map fun r => r.share).sum =
      remaining_of totals
    simp
  · rw [run_eq_ok event_uuid medal_uuid actor totals scores players h1' h3]
    show (((allocate (cap_of (remaining_of totals)) (remaining_of totals)
      (sumScores (aggregatedRows event_uuid totals.min_score_for_raffle scores players))
      (aggregatedRows event_uuid totals.min_score_for_raffle scores players)).1.filter
        fun r => decide (0 < r.share)).map _) = []
    rw [hpaid]
    rfl
  · intro n
    exact Function.iterate_fixed htot n

/-- Witness for C10 at the concrete dead-pot state (pot 5, one verified score
of 3): the run creates no transactions and leaves the totals unchanged. -/
theorem dead_pot_amended_witness :
    (run_weighted_distribution_v2 0 5 9 deadTotals deadPosScores deadPlayers).new_txs = [] ∧
    (run_weighted_distribution_v2 0 5 9 deadTotals deadPosScores deadPlayers).totals =
      deadTotals :=
  ⟨(dead_pot_amended 0 5 9 deadTotals deadPosScores deadPlayers (by decide) (by decide)
      (by decide)).2.1,
   (dead_pot_amended 0 5 9 deadTotals deadPosScores deadPlayers (by decide) (by decide)
      (by decide)).2.2.1⟩

end MedalLedger
